/-
Verification of the pharmacy invoice matcher against its design spec.

The Python sources are shallowly embedded as executable Lean definitions:
  * modules/learning_engine.py  : learned-mapping store (rows of the
    `learned_mappings` table as a list in rowid order), lookup and upsert.
  * modules/pharmaceutical_utils.py : text cleaning, abbreviation
    expansion, dosage/form/pack extraction, soundex, levenshtein, jaccard.
  * modules/advanced_matcher.py : similarity ensemble, business scores,
    dynamic score fusion, best-candidate scan.
  * match_invoice_elite.py      : VAT normalization, MRP adjustment,
    classification thresholds, per-line loop with empty-name guard.

Numbers are modelled as exact rationals (ℚ); Python floats in this code
only add, multiply and compare values far from any rounding tie.
SQL NULL for `supplier_pattern` is `Option String`; a pandas NaN cell is
`none`.  SQLite returns rows in rowid (insertion) order for the
unordered `fetchone` used by the upsert, so the store is a `List` in
insertion order.
-/
import Mathlib

namespace PharmacyMatcher

set_option maxRecDepth 16384

/-! ## Learning engine (modules/learning_engine.py)

A row of the `learned_mappings` table.  `supplier_pattern` is nullable. -/

structure Mapping where
  invoice_pattern : String
  invoice_pattern_clean : String
  supplier_pattern : Option String
  master_item_code : String
  master_item_name : String
  confidence : ℚ
  times_seen : ℕ
  times_confirmed : ℕ
  deriving DecidableEq, Repr

/-- The key test used by `add_learned_mapping`'s SELECT:
`invoice_pattern_clean = ? AND master_item_code = ? AND
(supplier_pattern = ? OR (supplier_pattern IS NULL AND ? IS NULL))`.
With SQL three-valued logic this is exactly equality of the optional
supplier. -/
def keyMatch (m : Mapping) (pc code : String) (sup : Option String) : Bool :=
  m.invoice_pattern_clean = pc && m.master_item_code = code &&
    m.supplier_pattern = sup

/-- First row of the store matching an upsert key (the row `fetchone`
returns for the un-ordered SELECT, i.e. lowest rowid). -/
def findKey : List Mapping → String → String → Option String → Option Mapping
  | [], _, _, _ => none
  | m :: rest, pc, code, sup =>
      if keyMatch m pc code sup then some m else findKey rest pc code sup

/-- The UPDATE branch of `add_learned_mapping`: both counters
incremented, and confidence recomputed as
`min(0.98, confidence_arg + new_times_confirmed * 0.01)` — from the
base confidence passed to the call (the stored confidence is not even
selected by the preceding SELECT). -/
def upsertUpdated (m : Mapping) (conf : ℚ) : Mapping :=
  { m with
    times_seen := m.times_seen + 1,
    times_confirmed := m.times_confirmed + 1,
    confidence :=
      min (98/100 : ℚ) (conf + ((m.times_confirmed : ℚ) + 1) * (1/100)) }

/-- The INSERT branch of `add_learned_mapping` (SQL column defaults
`times_seen = times_confirmed = 1`). -/
def freshMapping (pat pc code name : String) (sup : Option String)
    (conf : ℚ) : Mapping :=
  { invoice_pattern := pat, invoice_pattern_clean := pc,
    supplier_pattern := sup, master_item_code := code,
    master_item_name := name, confidence := conf,
    times_seen := 1, times_confirmed := 1 }

/-- `LearningEngine.add_learned_mapping`: update the first row matching
(clean pattern, item code, supplier), or, when no row matches, insert a
new row at the given confidence. -/
def add_learned_mapping (store : List Mapping)
    (pat pc code name : String) (sup : Option String) (conf : ℚ) :
    List Mapping :=
  match store with
  | [] => [freshMapping pat pc code name sup conf]
  | m :: rest =>
      if keyMatch m pc code sup then upsertUpdated m conf :: rest
      else m :: add_learned_mapping rest pat pc code name sup conf

/-- Stored confidence at an upsert key, for stating the claims. -/
def confAt (store : List Mapping) (pc code : String) (sup : Option String) :
    Option ℚ :=
  (findKey store pc code sup).map Mapping.confidence

/-- A row qualifies for `lookup_learned_mapping` with a non-empty
supplier: clean pattern equal, supplier equal or NULL, confidence at
least the threshold. -/
def lookupQual (m : Mapping) (nameClean sup : String) (minConf : ℚ) : Bool :=
  m.invoice_pattern_clean = nameClean &&
    (m.supplier_pattern = some sup || m.supplier_pattern = none) &&
    decide (minConf ≤ m.confidence)

/-- `ORDER BY supplier_pattern IS NOT NULL DESC, confidence DESC LIMIT 1`:
`b` beats `a` iff it is more supplier-specific, or equally specific with
strictly larger confidence. -/
def lookupBetter (b a : Mapping) : Bool :=
  (b.supplier_pattern.isSome && !a.supplier_pattern.isSome) ||
    (b.supplier_pattern.isSome = a.supplier_pattern.isSome &&
      decide (a.confidence < b.confidence))

/-- Keep the first row of the list that is maximal for `lookupBetter`
(a stable ORDER BY … LIMIT 1 over rows in rowid order). -/
def pickTop : List Mapping → Option Mapping
  | [] => none
  | m :: rest =>
      match pickTop rest with
      | none => some m
      | some b => if lookupBetter b m then some b else some m

/-- `LearningEngine.lookup_learned_mapping` for a truthy (non-empty)
cleaned supplier; the `else` branch (empty supplier) filters on the
pattern and confidence alone and orders by confidence. -/
def lookup_learned_mapping (store : List Mapping)
    (nameClean sup : String) (minConf : ℚ) : Option Mapping :=
  if sup ≠ "" then
    pickTop (store.filter fun m => lookupQual m nameClean sup minConf)
  else
    pickTop (store.filter fun m =>
      m.invoice_pattern_clean = nameClean && decide (minConf ≤ m.confidence))

/-! ### Corrections ingestion (`process_corrections_file`) -/

/-- A row of the `correction_history` audit table (only the fields the
ingestion writes matter for the claims; timestamps are omitted). -/
structure AuditEntry where
  invoice_no : String
  line_no : String
  invoice_item_name : String
  supplier_name : String
  suggested_item_code : String
  suggested_item_name : String
  suggested_score : ℚ
  corrected_item_code : String
  corrected_item_name : String
  correction_reason : String
  deriving DecidableEq, Repr

/-- Persistent learning state: the two SQLite tables. -/
structure LearnState where
  mappings : List Mapping
  audit : List AuditEntry
  deriving DecidableEq, Repr

/-- A data row of the corrections spreadsheet; optional cells are pandas
NaN when `none`. -/
structure CorrRow where
  invoice_no : String
  line_no : String
  invoice_item_name : String
  supplier_name : String
  suggested_item_code : Option String
  suggested_item_name : String
  final_score : ℚ
  corrected_item_code : Option String
  notes : String
  deriving DecidableEq, Repr

/-- Result of trying to read the corrections file: absent on disk,
`pd.read_excel` raised, or a table with its column list and rows. -/
inductive CorrectionsSource where
  | missing
  | unreadable
  | table (cols : List String) (rows : List CorrRow)
  deriving DecidableEq, Repr

/-- A catalog (master list) entry as loaded by the scripts. -/
structure MasterRow where
  item_code : String
  item_name : String
  mrp_master : Option ℚ
  b_rate : Option ℚ
  deriving DecidableEq, Repr

/-- `master_df[master_df['Item Code'] == code]` then `.iloc[0]`. -/
def masterLookup (master : List MasterRow) (code : String) :
    Option MasterRow :=
  master.find? fun r => r.item_code = code

/-- One iteration of the ingestion loop: skip the row when the corrected
code is absent from the master list, otherwise append an audit entry and
upsert the learned mapping at base confidence 0.90. -/
def processOneCorrection (master : List MasterRow)
    (cleanFunc : String → String) (st : LearnState × ℕ) (row : CorrRow) :
    LearnState × ℕ :=
  let correctedCode := row.corrected_item_code.getD ""
  match masterLookup master correctedCode with
  | none => st
  | some mrow =>
      let invoiceClean := cleanFunc row.invoice_item_name
      let supplierClean : Option String :=
        if row.supplier_name ≠ "" then some (cleanFunc row.supplier_name)
        else none
      let entry : AuditEntry :=
        { invoice_no := row.invoice_no, line_no := row.line_no,
          invoice_item_name := row.invoice_item_name,
          supplier_name := row.supplier_name,
          suggested_item_code := row.suggested_item_code.getD "",
          suggested_item_name := row.suggested_item_name,
          suggested_score := row.final_score,
          corrected_item_code := correctedCode,
          corrected_item_name := mrow.item_name,
          correction_reason := row.notes }
      let mappings := add_learned_mapping st.1.mappings
        row.invoice_item_name invoiceClean correctedCode mrow.item_name
        supplierClean (90/100)
      ({ mappings := mappings, audit := st.1.audit ++ [entry] }, st.2 + 1)

/-- `LearningEngine.process_corrections_file`: returns the updated state
and the count of corrections processed.  Missing file, unreadable file,
missing required columns, or no row with a real correction all return
count 0 without touching the state. -/
def process_corrections_file (src : CorrectionsSource)
    (master : List MasterRow) (cleanFunc : String → String)
    (st : LearnState) : LearnState × ℕ :=
  match src with
  | .missing => (st, 0)
  | .unreadable => (st, 0)
  | .table cols rows =>
      if !(cols.contains "Invoice_Item_Name" &&
           cols.contains "Suggested_Item_Code" &&
           cols.contains "Corrected_Item_Code") then (st, 0)
      else
        let corrections := rows.filter fun r =>
          r.corrected_item_code.isSome &&
            r.corrected_item_code ≠ r.suggested_item_code
        if corrections.isEmpty then (st, 0)
        else corrections.foldl (processOneCorrection master cleanFunc) (st, 0)

/-! ## Text utilities (modules/pharmaceutical_utils.py)

All modelled text is ASCII (the punctuation set, abbreviation keys, unit
and form vocabularies are ASCII), so `Char.toUpper` coincides with
Python `str.upper` on the modelled domain.  A pandas-NaN cell reaching
`clean` yields `""` in Python; the embedding works on `String`, with
missing cells handled by the callers as `Option`. -/

/-- The apostrophe character (kept out of literals for readability). -/
def aposChar : Char := Char.ofNat 39

/-- The double-quote character. -/
def quotChar : Char := Char.ofNat 34

/-- Punctuation stripped by `clean` in match_invoice_elite.py /
match_invoice.py (no ampersand). -/
def ELITE_PUNCT : List Char :=
  ['*', ',', '.', '-', '/', '(', ')', '%', aposChar, quotChar]

/-- Punctuation stripped by `PharmaceuticalNameParser.clean_basic`
(adds the ampersand). -/
def BASIC_PUNCT : List Char :=
  ['*', ',', '.', '-', '/', '(', ')', '%', aposChar, quotChar, '&']

/-- Python `str.split()`: split on whitespace runs, dropping empties. -/
def wsSplitGo (acc : List Char) : List Char → List String
  | [] => if acc.isEmpty then [] else [String.mk acc.reverse]
  | c :: rest =>
      if c.isWhitespace then
        if acc.isEmpty then wsSplitGo [] rest
        else String.mk acc.reverse :: wsSplitGo [] rest
      else wsSplitGo (c :: acc) rest

/-- Uppercase, replace the given punctuation by spaces. -/
def cleanChars (punct : List Char) (s : String) : List Char :=
  (s.toList.map Char.toUpper).map fun c => if punct.contains c then ' ' else c

/-- `clean` of the two driver scripts: uppercase, strip punctuation,
collapse whitespace. -/
def clean (s : String) : String :=
  " ".intercalate (wsSplitGo [] (cleanChars ELITE_PUNCT s))

/-- `PharmaceuticalNameParser.clean_basic` (also strips `&`). -/
def clean_basic (s : String) : String :=
  " ".intercalate (wsSplitGo [] (cleanChars BASIC_PUNCT s))

/-- `PharmaceuticalNameParser.ABBREVIATIONS`. -/
def ABBREVIATIONS : List (String × String) :=
  [("CAL", "CALCIUM"), ("MAG", "MAGNESIUM"), ("VIT", "VITAMIN"),
   ("PARACET", "PARACETAMOL"), ("P-MOL", "PARACETAMOL"),
   ("PMOL", "PARACETAMOL"), ("IBUPROF", "IBUPROFEN"),
   ("DICLO", "DICLOFENAC"), ("AMOXI", "AMOXICILLIN"),
   ("AMOX", "AMOXICILLIN"), ("CEFU", "CEFUROXIME"),
   ("CEFURO", "CEFUROXIME"), ("CLAV", "CLAVULANIC"),
   ("ATORVA", "ATORVASTATIN"), ("ROSUVA", "ROSUVASTATIN"),
   ("MONTE", "MONTELUKAST"), ("LEVO", "LEVOCETIRIZINE"),
   ("CETIRIZ", "CETIRIZINE"), ("CETIRI", "CETIRIZINE"),
   ("LORA", "LORATADINE"), ("DEXA", "DEXAMETHASONE"),
   ("PRED", "PREDNISOLONE"), ("HYDRO", "HYDROCORTISONE"),
   ("DECONGEST", "DECONGESTANT"), ("ANTIHISTAM", "ANTIHISTAMINE"),
   ("SUPPL", "SUPPLEMENT"), ("MULTIVIT", "MULTIVITAMIN")]

/-- `expand_abbreviations`: exact whole-word dictionary lookup. -/
def expand_abbreviations (s : String) : String :=
  " ".intercalate ((wsSplitGo [] s.toList).map fun w =>
    ((ABBREVIATIONS.lookup w).getD w))

/-- `PharmaceuticalNameParser.DOSAGE_UNITS`, in the source order the
regex alternation tries them. -/
def DOSAGE_UNITS : List String :=
  ["MG", "GM", "G", "ML", "MCG", "IU", "UNIT", "UNITS",
   "MICROGRAM", "MILLIGRAM", "GRAM", "MILLILITRE", "LITRE"]

/-- First string of `ps` (regex alternation order) that is a literal
prefix of `cs`; returns it with the remaining characters. -/
def firstAlt : List String → List Char → Option (String × List Char)
  | [], _ => none
  | p :: rest, cs =>
      if p.toList.isPrefixOf cs then some (p, cs.drop p.toList.length)
      else firstAlt rest cs

theorem firstAlt_shrink {ps : List String} {cs : List Char}
    {u : String} {r : List Char} (hne : ∀ p ∈ ps, p.toList ≠ [])
    (h : firstAlt ps cs = some (u, r)) : r.length < cs.length := by
  induction ps with
  | nil => simp [firstAlt] at h
  | cons p rest ih =>
      by_cases hp : p.toList.isPrefixOf cs
      · simp only [firstAlt, if_pos hp] at h
        have hpre : p.toList <+: cs := List.isPrefixOf_iff_prefix.mp hp
        have hr : r = cs.drop p.toList.length := by
          have := h
          simp only [Option.some.injEq, Prod.mk.injEq] at this
          exact this.2.symm
        have hle : p.toList.length ≤ cs.length := hpre.length_le
        have hpos : 0 < p.toList.length :=
          List.length_pos.mpr (hne p (List.mem_cons_self p rest))
        subst hr
        simp only [List.length_drop]
        omega
      · simp only [firstAlt, if_neg hp] at h
        exact ih (fun q hq => hne q (List.mem_cons_of_mem p hq)) h

/-- The greedy number parse `\d+(?:\.\d+)?` at the head of the string:
returns the matched number characters and the remainder (the optional
decimal group participates only when a digit follows the dot). -/
def numParse (cs : List Char) : List Char × List Char :=
  let d := cs.takeWhile Char.isDigit
  let r := cs.dropWhile Char.isDigit
  match r with
  | r0 :: r2 =>
      if r0 = '.' ∧ r2.takeWhile Char.isDigit ≠ [] then
        (d ++ '.' :: r2.takeWhile Char.isDigit, r2.dropWhile Char.isDigit)
      else (d, r0 :: r2)
  | [] => (d, [])

theorem numParse_snd_le (cs : List Char) :
    (numParse cs).2.length ≤ (cs.dropWhile Char.isDigit).length := by
  unfold numParse
  cases h : cs.dropWhile Char.isDigit with
  | nil => simp
  | cons r0 r2 =>
      dsimp only
      split
      · have hs := (List.dropWhile_suffix (l := r2) Char.isDigit).length_le
        simp only [List.length_cons]
        omega
      · simp

theorem numParse_snd_le_tail {c : Char} {rest : List Char}
    (hc : c.isDigit = true) :
    (numParse (c :: rest)).2.length ≤ rest.length := by
  have h1 := numParse_snd_le (c :: rest)
  have h2 : (c :: rest).dropWhile Char.isDigit =
      rest.dropWhile Char.isDigit := by
    simp [List.dropWhile_cons, hc]
  have h3 := (List.dropWhile_suffix (l := rest) Char.isDigit).length_le
  rw [h2] at h1
  omega

/-- `extract_dosage`'s regex scan `(\d+(?:\.\d+)?)\s*(UNIT|…)`, left to
right, non-overlapping: a greedy number (optional decimal part),
optional whitespace, then the first unit of the alternation that
matches; on failure the scan advances one character (a shorter digit
prefix can never rescue the unit match, since the next character would
still be a digit).  Structural recursion on a fuel that every step
strictly shrinks the text against (a successful match consumes the
whole number, by `numParse_snd_le_tail` and `firstAlt_shrink`), so
starting fuel `cs.length` is never exhausted. -/
def dosageScanF : ℕ → List Char → List String
  | 0, _ => []
  | _ + 1, [] => []
  | fuel + 1, c :: rest =>
      if c.isDigit then
        let np := numParse (c :: rest)
        let afterWs := np.2.dropWhile Char.isWhitespace
        match firstAlt DOSAGE_UNITS afterWs with
        | some (u, restAfter) =>
            String.mk (np.1 ++ u.toList) :: dosageScanF fuel restAfter
        | none => dosageScanF fuel rest
      else dosageScanF fuel rest

/-- `extract_dosage`. -/
def dosageScan (cs : List Char) : List String := dosageScanF cs.length cs

/-- `PharmaceuticalNameParser.FORMS`, in regex alternation order. -/
def FORMS : List String :=
  ["TAB", "TABS", "TABLET", "TABLETS",
   "CAP", "CAPS", "CAPSULE", "CAPSULES",
   "SYRUP", "SUSPENSION", "SUSP", "DROPS",
   "INJ", "INJECTION", "CREAM", "OINTMENT", "GEL",
   "LOTION", "SPRAY", "POWDER", "SACHET", "SACHETS",
   "SOLUTION", "SOL", "AMPOULE", "AMP", "VIAL",
   "SUPPOSITORY", "SUPP", "PESSARY"]

/-- A regex word character (`\w`), for the ASCII domain. -/
def isWordChar (c : Char) : Bool := c.isAlphanum || c = '_'

/-- Word boundary after a match: end of string or a non-word char. -/
def boundaryAfterOk : List Char → Bool
  | [] => true
  | c :: _ => !isWordChar c

/-- Try `\b(FORM|…)[S]?\b` at the current position (the `\b` before was
already checked by the caller): alternatives in order; the optional `S`
is greedy, and when the boundary after `S` fails, backtracking to the
empty option cannot succeed either, since the next char is then the
word-char `S` itself.  (The scanned text is uppercase, so `re.IGNORECASE`
and the literal uppercase vocabulary coincide.) -/
def tryFormsAt (cs : List Char) : Option String :=
  FORMS.findSome? fun f =>
    if f.toList.isPrefixOf cs then
      match cs.drop f.toList.length with
      | 'S' :: after2 => if boundaryAfterOk after2 then some f else none
      | after1 => if boundaryAfterOk after1 then some f else none
    else none

/-- `form_pattern.search`: leftmost position (with a word boundary
before it) where some form alternative matches. -/
def formScan (prev : Option Char) : List Char → Option String
  | [] => none
  | c :: rest =>
      let boundaryBefore :=
        match prev with
        | none => true
        | some p => !isWordChar p
      match (if boundaryBefore then tryFormsAt (c :: rest) else none) with
      | some f => some f
      | none => formScan (some c) rest

/-- `extract_form`: the matched alternative (group 1, without the
optional trailing `S`), then plural normalization of TABS/CAPS/SACHETS. -/
def extract_form (cs : List Char) : Option String :=
  match formScan none cs with
  | none => none
  | some f =>
      if f.toList.getLast? = some 'S' ∧
          (["TAB", "CAP", "SACHET"].contains (String.mk f.toList.dropLast)) then
        some (String.mk f.toList.dropLast)
      else some f

/-- The suffix `\s*['S]?\s*$` of the pack-size patterns, after the
digits: optional whitespace, at most one `'`/`S`/`s`, optional
whitespace, end of string.  Backtracking cannot help: once the leading
whitespace is consumed greedily, a remaining non-class character fails
every alternative. -/
def packAcceptsEnd (cs : List Char) : Bool :=
  match cs.dropWhile Char.isWhitespace with
  | [] => true
  | c :: r2 =>
      (c = aposChar || c = 'S' || c = 's') &&
        (r2.dropWhile Char.isWhitespace).isEmpty

/-- `pack_pattern.search` for `(\d+)\s*['S]?\s*$`: leftmost digit whose
greedy run is followed by an accepting tail; a shorter digit prefix can
never succeed where the full run fails, so failure advances one
character. -/
def packScan : List Char → Option String
  | [] => none
  | c :: rest =>
      if c.isDigit then
        if packAcceptsEnd ((c :: rest).dropWhile Char.isDigit) then
          some (String.mk ((c :: rest).takeWhile Char.isDigit))
        else packScan rest
      else packScan rest

/-- Python `str.replace(sub, '')` for a non-empty `sub` (the first
pattern character is passed separately so every step of the scan
consumes at least one character): removes non-overlapping occurrences
left to right.  Fuel `cs.length` is never exhausted. -/
def removeAllGoF (s0 : Char) (sr : List Char) : ℕ → List Char → List Char
  | 0, _ => []
  | _ + 1, [] => []
  | fuel + 1, c :: rest =>
      if (s0 :: sr).isPrefixOf (c :: rest) then
        removeAllGoF s0 sr fuel (rest.drop sr.length)
      else c :: removeAllGoF s0 sr fuel rest

/-- `working.replace(dosage, '')` (dosage strings are never empty). -/
def removeAll (cs : List Char) (sub : String) : List Char :=
  match sub.toList with
  | [] => cs
  | s0 :: sr => removeAllGoF s0 sr cs.length cs

/-- `re.sub(r'\b' + form + r'[S]?\b', '', working)`: delete every
boundary-delimited occurrence of the form (with optional trailing `S`),
scanning the original text left to right; `prev` is the character
before the current position in the original text. -/
def subFormGoF (f0 : Char) (fr : List Char) :
    ℕ → Option Char → List Char → List Char
  | 0, _, _ => []
  | _ + 1, _, [] => []
  | fuel + 1, prev, c :: rest =>
      let boundaryBefore :=
        match prev with
        | none => true
        | some p => !isWordChar p
      if boundaryBefore && (f0 :: fr).isPrefixOf (c :: rest) then
        match rest.drop fr.length with
        | 'S' :: after2 =>
            if boundaryAfterOk after2 then
              subFormGoF f0 fr fuel (some 'S') after2
            else c :: subFormGoF f0 fr fuel (some c) rest
        | after1 =>
            if boundaryAfterOk after1 then
              subFormGoF f0 fr fuel (some ((f0 :: fr).getLast (by simp)))
                after1
            else c :: subFormGoF f0 fr fuel (some c) rest
      else c :: subFormGoF f0 fr fuel (some c) rest

/-- Form removal wrapper (forms are never empty; every scan step
consumes at least one character, so fuel `cs.length` never runs out). -/
def subFormAll (cs : List Char) (form : String) : List Char :=
  match form.toList with
  | [] => cs
  | f0 :: fr => subFormGoF f0 fr cs.length none cs

/-- `re.sub(r'\b' + pack + r"\s*['S]?\s*$", '', working)`: the pattern
is anchored at the end, so a match deletes from the (leftmost,
boundary-preceded) occurrence of the pack digits to the end. -/
def subPackGo (pk : List Char) (prev : Option Char) :
    List Char → List Char
  | [] => []
  | c :: rest =>
      let boundaryBefore :=
        match prev with
        | none => true
        | some p => !isWordChar p
      if boundaryBefore && pk.isPrefixOf (c :: rest) &&
          packAcceptsEnd ((c :: rest).drop pk.length) then []
      else c :: subPackGo pk (some c) rest

/-- `PharmaceuticalNameParser.STOPWORDS`. -/
def STOPWORDS : List String :=
  ["THE", "AND", "WITH", "FOR", "PLUS", "NEW", "ADVANCED",
   "EXTRA", "SUPER", "MAXIMUM", "ORIGINAL", "REGULAR"]

/-- The result of `tokenize_smart`. -/
structure Parsed where
  tokens : List String
  dosages : List String
  form : Option String
  pack_size : Option String
  clean_text : String
  full_clean : String
  deriving DecidableEq, Repr

/-- `PharmaceuticalNameParser.tokenize_smart`: basic clean, abbreviation
expansion, component extraction, then removal of the extracted dosage /
form / pack substrings and stopword filtering for the residual tokens. -/
def tokenize_smart (text : String) : Parsed :=
  let cl := clean_basic text
  let expanded := expand_abbreviations cl
  let expChars := expanded.toList
  let dosages := dosageScan expChars
  let form := extract_form expChars
  let pack := packScan expChars
  let w1 := dosages.foldl removeAll expChars
  let w2 :=
    match form with
    | some f => subFormAll w1 f
    | none => w1
  let w3 :=
    match pack with
    | some p => subPackGo p.toList none w2
    | none => w2
  let tokens := (wsSplitGo [] w3).filter fun w => !STOPWORDS.contains w
  { tokens := tokens, dosages := dosages, form := form, pack_size := pack,
    clean_text := " ".intercalate tokens, full_clean := expanded }

/-- `PharmaceuticalNameParser.normalize_form` (an empty form is falsy in
Python and yields `None`). -/
def normalize_form : Option String → Option String
  | none => none
  | some f =>
      if f = "" then none
      else
        let fu := String.mk (f.toList.map Char.toUpper)
        some ((([("TABLETS", "TAB"), ("TABLET", "TAB"), ("TABS", "TAB"),
                 ("CAPSULES", "CAP"), ("CAPSULE", "CAP"), ("CAPS", "CAP"),
                 ("SUSPENSION", "SUSP"), ("INJECTION", "INJ"),
                 ("SOLUTION", "SOL"), ("AMPOULE", "AMP"),
                 ("SUPPOSITORY", "SUPP"), ("SACHETS", "SACHET")] :
            List (String × String)).lookup fu).getD fu)

/-! ### Phonetic matcher, levenshtein, jaccard -/

/-- The letter-group table of `PhoneticMatcher.soundex`; `'0'` encodes
"not in the mapping". -/
def soundexDigit (c : Char) : Char :=
  if ['B', 'F', 'P', 'V'].contains c then '1'
  else if ['C', 'G', 'J', 'K', 'Q', 'S', 'X', 'Z'].contains c then '2'
  else if ['D', 'T'].contains c then '3'
  else if c = 'L' then '4'
  else if ['M', 'N'].contains c then '5'
  else if c = 'R' then '6'
  else '0'

/-- The soundex main loop: skip unmapped letters, collapse consecutive
identical codes (an unmapped letter does not reset the previous code). -/
def soundexGo : List Char → Char → List Char
  | [], _ => []
  | c :: rest, prevCode =>
      let d := soundexDigit c
      if d ≠ '0' ∧ d ≠ prevCode then d :: soundexGo rest d
      else soundexGo rest prevCode

/-- `PhoneticMatcher.soundex`: first letter kept verbatim, then group
codes, padded / truncated to 4 characters.  The initial `prev_code` is
Python's `''`, which no code equals; `' '` plays that role here. -/
def soundex (w : String) : String :=
  match w.toList.map Char.toUpper with
  | [] => ""
  | c :: rest => String.mk (((c :: soundexGo rest ' ') ++ ['0', '0', '0']).take 4)

/-- `PhoneticMatcher.phonetic_similarity`: fraction of query-word codes
appearing among candidate-word codes, over the larger word count. -/
def phonetic_similarity (t1 t2 : String) : ℚ :=
  if t1 = "" ∨ t2 = "" then 0
  else
    let words1 := wsSplitGo [] (t1.toList.map Char.toUpper)
    let words2 := wsSplitGo [] (t2.toList.map Char.toUpper)
    if words1.isEmpty ∨ words2.isEmpty then 0
    else
      let codes1 := words1.map soundex
      let codes2 := words2.map soundex
      (codes1.countP fun c => codes2.contains c : ℚ) /
        (max codes1.length codes2.length : ℚ)

/-- One inner row step of the levenshtein dynamic program
(`previous_row` is consumed two entries at a time, `left` is the entry
just written to the current row). -/
def levRow (c1 : Char) : List Char → List ℕ → ℕ → List ℕ
  | c2 :: s2t, p0 :: p1 :: ps, left =>
      let v := min (p1 + 1) (min (left + 1) (p0 + (if c1 = c2 then 0 else 1)))
      v :: levRow c1 s2t (p1 :: ps) v
  | _, _, _ => []

/-- The outer loop over `s1` (`i` is Python's `enumerate` index). -/
def levRows (s2 : List Char) : List Char → List ℕ → ℕ → List ℕ
  | [], prev, _ => prev
  | c1 :: s1t, prev, i =>
      levRows s2 s1t ((i + 1) :: levRow c1 s2 prev (i + 1)) (i + 1)

/-- `levenshtein_distance` after the argument swap: `s1` is the longer
string; `previous_row` starts as `range(len(s2)+1)` and the distance is
the last entry of the final row. -/
def levDistCore (s1 s2 : List Char) : ℕ :=
  if s2.isEmpty then s1.length
  else (levRows s2 s1 (List.range (s2.length + 1)) 0).getLastD 0

/-- `pharmaceutical_utils.levenshtein_distance`. -/
def levenshtein_distance (s1 s2 : List Char) : ℕ :=
  if s1.length < s2.length then levDistCore s2 s1 else levDistCore s1 s2

/-- `pharmaceutical_utils.levenshtein_similarity`. -/
def levenshtein_similarity (a b : String) : ℚ :=
  if a = "" ∨ b = "" then 0
  else
    let maxLen := max a.toList.length b.toList.length
    if maxLen = 0 then 1
    else 1 - (levenshtein_distance a.toList b.toList : ℚ) / (maxLen : ℚ)

/-- `pharmaceutical_utils.jaccard_similarity` over token lists (set
semantics via deduplication). -/
def jaccard_similarity (t1 t2 : List String) : ℚ :=
  if t1.isEmpty ∨ t2.isEmpty then 0
  else
    let inter := t1.dedup.countP fun x => t2.contains x
    let union := (t1 ++ t2).dedup.length
    if union = 0 then 0 else (inter : ℚ) / (union : ℚ)

/-! ### difflib.SequenceMatcher (used via `SequenceMatcher(None, a, b).ratio()`)

Both compared strings are short (far below difflib's autojunk threshold
of 200), so no junk handling applies and `ratio` is the pure
Ratcliff/Obershelp recursion: repeatedly take the longest matching
block — earliest in `a`, then earliest in `b`, among maximal — and
recurse on both sides. -/

/-- Length of the longest common suffix-free run starting exactly at the
heads of both lists. -/
def commonPrefixLen : List Char → List Char → ℕ
  | x :: xs, y :: ys => if x = y then commonPrefixLen xs ys + 1 else 0
  | _, _ => 0

theorem commonPrefixLen_le_left (xs ys : List Char) :
    commonPrefixLen xs ys ≤ xs.length := by
  induction xs generalizing ys with
  | nil => cases ys <;> simp [commonPrefixLen]
  | cons x xt ih =>
      cases ys with
      | nil => simp [commonPrefixLen]
      | cons y yt =>
          by_cases hxy : x = y
          · simpa [commonPrefixLen, hxy] using ih yt
          · simp [commonPrefixLen, hxy]

theorem commonPrefixLen_le_right (xs ys : List Char) :
    commonPrefixLen xs ys ≤ ys.length := by
  induction xs generalizing ys with
  | nil => cases ys <;> simp [commonPrefixLen]
  | cons x xt ih =>
      cases ys with
      | nil => simp [commonPrefixLen]
      | cons y yt =>
          by_cases hxy : x = y
          · simpa [commonPrefixLen, hxy] using ih yt
          · simp [commonPrefixLen, hxy]

/-- The scan loop of `find_longest_match`: one candidate start pair at
a time, keeping the strictly-longest run seen so far (the running best
is carried in three forced scalar arguments). -/
def bestBlockGo (a b : List Char) :
    List (ℕ × ℕ) → ℕ → ℕ → ℕ → ℕ × ℕ × ℕ
  | [], bi, bj, bk => (bi, bj, bk)
  | (i, j) :: rest, bi, bj, bk =>
      if bk < commonPrefixLen (a.drop i) (b.drop j) then
        bestBlockGo a b rest i j (commonPrefixLen (a.drop i) (b.drop j))
      else bestBlockGo a b rest bi bj bk

/-- `find_longest_match` over the whole ranges: scan all start pairs in
lexicographic order, keep the first strictly-longest run.  Ties keep
the earliest start in `a`, then in `b` — difflib's documented
tie-breaking. -/
def bestBlock (a b : List Char) : ℕ × ℕ × ℕ :=
  bestBlockGo a b (List.range a.length ×ˢ List.range b.length) 0 0 0

theorem bestBlockGo_bounds (a b : List Char) :
    ∀ (ps : List (ℕ × ℕ)) (bi bj bk : ℕ),
      (∀ p ∈ ps, p.1 < a.length ∧ p.2 < b.length) →
      (bi + bk ≤ a.length ∧ bj + bk ≤ b.length ∨ bk = 0) →
      ((bestBlockGo a b ps bi bj bk).1 +
          (bestBlockGo a b ps bi bj bk).2.2 ≤ a.length ∧
        (bestBlockGo a b ps bi bj bk).2.1 +
          (bestBlockGo a b ps bi bj bk).2.2 ≤ b.length ∨
        (bestBlockGo a b ps bi bj bk).2.2 = 0) := by
  intro ps
  induction ps with
  | nil =>
      intro bi bj bk _ hacc
      simpa [bestBlockGo] using hacc
  | cons p rest ih =>
      intro bi bj bk hmem hacc
      obtain ⟨i, j⟩ := p
      have hij := hmem (i, j) (List.mem_cons_self _ _)
      rw [bestBlockGo]
      split
      · refine ih i j (commonPrefixLen (a.drop i) (b.drop j))
          (fun q hq => hmem q (List.mem_cons_of_mem _ hq)) (Or.inl ⟨?_, ?_⟩)
        · have h1 := commonPrefixLen_le_left (a.drop i) (b.drop j)
          simp only [List.length_drop] at h1
          have h2 := hij.1
          omega
        · have h1 := commonPrefixLen_le_right (a.drop i) (b.drop j)
          simp only [List.length_drop] at h1
          have h2 := hij.2
          omega
      · exact ih bi bj bk
          (fun q hq => hmem q (List.mem_cons_of_mem _ hq)) hacc

theorem bestBlock_bounds (a b : List Char) :
    (bestBlock a b).1 + (bestBlock a b).2.2 ≤ a.length ∧
      (bestBlock a b).2.1 + (bestBlock a b).2.2 ≤ b.length ∨
      (bestBlock a b).2.2 = 0 := by
  unfold bestBlock
  apply bestBlockGo_bounds
  · intro p hp
    obtain ⟨i, j⟩ := p
    rw [List.mem_product] at hp
    exact ⟨List.mem_range.mp hp.1, List.mem_range.mp hp.2⟩
  · exact Or.inr rfl

/-- Total size of all matching blocks: the Ratcliff/Obershelp recursion
of `get_matching_blocks` (block sizes summed, as `ratio` does).  Each
recursive call strictly shrinks `a.length + b.length` (by
`bestBlock_bounds`, since the block is non-empty), so starting fuel
`a.length + b.length + 1` is never exhausted. -/
def matchingTotalF : ℕ → List Char → List Char → ℕ
  | 0, _, _ => 0
  | fuel + 1, a, b =>
      match bestBlock a b with
      | (i, j, k) =>
        if k = 0 then 0
        else
          k + matchingTotalF fuel (a.take i) (b.take j) +
            matchingTotalF fuel (a.drop (i + k)) (b.drop (j + k))

/-- The summed matching-block size of `SequenceMatcher`. -/
def matchingTotal (a b : List Char) : ℕ :=
  matchingTotalF (a.length + b.length + 1) a b

/-- `SequenceMatcher(None, a, b).ratio()`: `2·M/T`, or `1.0` when both
strings are empty (difflib's `_calculate_ratio`). -/
def sequence_ratio (a b : String) : ℚ :=
  let la := a.toList.length
  let lb := b.toList.length
  if la + lb = 0 then 1
  else 2 * (matchingTotal a.toList b.toList : ℚ) / ((la : ℚ) + (lb : ℚ))

/-! ## Driver helpers (match_invoice_elite.py) -/

/-- `normalize_vat_rate`: NaN/non-numeric → 0; negative → 0; a value in
[0, 1] is already a rate; a value above 1 is a percentage. -/
def normalize_vat_rate : Option ℚ → ℚ
  | none => 0
  | some v => if v < 0 then 0 else if v ≤ 1 then v else v / 100

/-- `adjust_mrp_for_vat`: invalid or non-positive invoice MRP → None;
no positive VAT rate → unchanged; else divide out the VAT. -/
def adjust_mrp_for_vat (mrp : Option ℚ) (vat : Option ℚ) : Option ℚ :=
  match mrp with
  | none => none
  | some m =>
      if m ≤ 0 then none
      else
        let rate := normalize_vat_rate vat
        if rate ≤ 0 then some m else some (m / (1 + rate))

/-- The per-line effective unit price: NaN quantities count as 0, a
missing / non-numeric unit price aborts (None), and the bonus formula
applies only when `qty > 0` and `qty + bonus > 0`. -/
def effectiveUnitPrice (qty bonus unitPrice : Option ℚ) : Option ℚ :=
  match unitPrice with
  | none => none
  | some up =>
      let q := qty.getD 0
      let b := bonus.getD 0
      if 0 < q ∧ 0 < q + b then some (up * q / (q + b)) else none

/-- The classification tier of a final score (`match_invoice_elite.py`
lines 327–336, identically `match_invoice.py` lines 434–440). -/
def flagOf (fs : ℚ) : String :=
  if 80/100 ≤ fs then "AUTO_OK" else if 60/100 ≤ fs then "CHECK"
  else "NO_MATCH"

/-- The per-line output loop of both driver scripts, abstracted over the
per-line processing `f` (which in the scripts only reads the line and
run-constant context): a line whose cleaned name is empty is skipped
(`continue`) before any matching; every other line appends exactly one
output record. -/
def run_lines {α β : Type} (nameOf : α → String) (f : α → β)
    (lines : List α) : List β :=
  lines.foldl
    (fun acc line => if clean (nameOf line) = "" then acc else acc ++ [f line])
    []

/-! ## Advanced matcher (modules/advanced_matcher.py)

`_preprocess_master` extends each master row with its cleaned name and
`tokenize_smart` decomposition. -/

structure CatalogEntry where
  item_code : String
  item_name : String
  mrp_master : Option ℚ
  b_rate : Option ℚ
  clean_name : String
  parsed : Parsed
  deriving DecidableEq, Repr

/-- Build a `CatalogEntry` the way the elite driver and
`_preprocess_master` do. -/
def preprocessMaster (r : MasterRow) : CatalogEntry :=
  { item_code := r.item_code, item_name := r.item_name,
    mrp_master := r.mrp_master, b_rate := r.b_rate,
    clean_name := clean r.item_name,
    parsed := tokenize_smart r.item_name }

/-- The five name-similarity signals of `_compute_similarity_scores`. -/
structure NameScores where
  sequence_match : ℚ
  levenshtein : ℚ
  jaccard : ℚ
  phonetic : ℚ
  component_bonus : ℚ
  deriving DecidableEq, Repr

/-- The exact-dosage part of the component bonus:
`0.3 × overlapping dosage count / max(len, len)` when both sides carry a
dosage and at least one overlaps. -/
def dosageBonus (inv cand : Parsed) : ℚ :=
  if inv.dosages ≠ [] ∧ cand.dosages ≠ [] then
    if 0 < inv.dosages.countP (fun d => cand.dosages.contains d) then
      (3/10) *
        ((inv.dosages.countP fun d => cand.dosages.contains d : ℕ) : ℚ) /
        ((max inv.dosages.length cand.dosages.length : ℕ) : ℚ)
    else 0
  else 0

/-- The form part of the component bonus: `0.1` when both forms are
present (truthy) and normalize to the same standard form. -/
def formBonus (inv cand : Parsed) : ℚ :=
  if inv.form.isSome ∧ cand.form.isSome ∧ inv.form ≠ some "" ∧
      cand.form ≠ some "" ∧
      normalize_form inv.form = normalize_form cand.form then 1/10
  else 0

/-- `_compute_similarity_scores` on the parsed invoice name and a parsed
candidate. -/
def compute_similarity_scores (inv cand : Parsed) : NameScores :=
  { sequence_match := sequence_ratio inv.full_clean cand.full_clean,
    levenshtein := levenshtein_similarity inv.clean_text cand.clean_text,
    jaccard := jaccard_similarity inv.tokens cand.tokens,
    phonetic := phonetic_similarity inv.clean_text cand.clean_text,
    component_bonus := min (dosageBonus inv cand + formBonus inv cand) (4/10) }

/-- `_compute_supplier_score`: 1.0 for supplier-specific purchase
history, 0.5 for global history, else 0.  The two pandas indexes are
modelled by their key sets. -/
def compute_supplier_score (cleanName supplierClean : String)
    (bySupplierKeys : List (String × String)) (globalKeys : List String) :
    ℚ :=
  if bySupplierKeys.contains (cleanName, supplierClean) then 1
  else if globalKeys.contains cleanName then 1/2
  else 0

/-- `_compute_mrp_score`: missing or non-positive values score 0, else
`max(0, 1 − 3·relative difference)`. -/
def compute_mrp_score (mrpInvoiceAdj mrpMaster : Option ℚ) : ℚ :=
  match mrpInvoiceAdj, mrpMaster with
  | some mi, some mm =>
      if mi ≤ 0 ∨ mm ≤ 0 then 0
      else max 0 (1 - |mi - mm| / max mi mm * 3)
  | _, _ => 0

/-- `_compute_cost_score` (identical to `cost_score` in
match_invoice.py): ratio within ±10 % → 1.0, within ±40 % → 0.5,
else 0; missing or non-positive inputs → 0. -/
def compute_cost_score (effectiveUnit bRate : Option ℚ) : ℚ :=
  match effectiveUnit, bRate with
  | some inv, some last =>
      if inv ≤ 0 ∨ last ≤ 0 then 0
      else
        let delta := |inv / last - 1|
        if delta ≤ 10/100 then 1
        else if delta ≤ 40/100 then 1/2
        else 0
  | _, _ => 0

/-- `compute_final_score`: the ensemble name score, then the two weight
regimes selected by MRP availability. -/
def compute_final_score (ns : NameScores) (supplierScore mrpScore costScore : ℚ)
    (hasMrp : Bool) : ℚ :=
  let nameScore :=
    (25/100) * ns.sequence_match + (20/100) * ns.levenshtein +
      (20/100) * ns.jaccard + (15/100) * ns.phonetic +
      (20/100) * ns.component_bonus
  if hasMrp then
    (45/100) * nameScore + (25/100) * supplierScore +
      (20/100) * mrpScore + (10/100) * costScore
  else
    (55/100) * nameScore + (30/100) * supplierScore + (15/100) * costScore

/-- The `best` dictionary of `match_item` (the last-purchase reporting
strings and the formatted details string carry no decision logic and
are omitted). -/
structure MatchResult where
  item_code : Option String
  item_name : Option String
  mrp_master : Option ℚ
  name_scores : Option NameScores
  supplier_score : ℚ
  mrp_score : ℚ
  cost_score : ℚ
  final_score : ℚ
  has_mrp : Bool
  deriving DecidableEq, Repr

/-- The initial `best` dict of `match_item` (final score −1.0). -/
def initBest : MatchResult :=
  { item_code := none, item_name := none, mrp_master := none,
    name_scores := none, supplier_score := 0, mrp_score := 0,
    cost_score := 0, final_score := -1, has_mrp := false }

/-- `_empty_result`. -/
def empty_result : MatchResult :=
  { initBest with final_score := 0 }

/-- The per-candidate evaluation inside `match_item`'s loop
(`has_mrp` is `mrp_invoice_adj is not None and MRP_Master is not
None/NaN`; the MRP score participates only then). -/
def evalCandidate (invParsed : Parsed) (supplierClean : String)
    (effectiveUnit mrpInvoiceAdj : Option ℚ)
    (bySupplierKeys : List (String × String)) (globalKeys : List String)
    (cand : CatalogEntry) : MatchResult :=
  { item_code := some cand.item_code, item_name := some cand.item_name,
    mrp_master := cand.mrp_master,
    name_scores := some (compute_similarity_scores invParsed cand.parsed),
    supplier_score := compute_supplier_score cand.clean_name supplierClean
      bySupplierKeys globalKeys,
    mrp_score :=
      if mrpInvoiceAdj.isSome && cand.mrp_master.isSome then
        compute_mrp_score mrpInvoiceAdj cand.mrp_master
      else 0,
    cost_score := compute_cost_score effectiveUnit cand.b_rate,
    final_score := compute_final_score
      (compute_similarity_scores invParsed cand.parsed)
      (compute_supplier_score cand.clean_name supplierClean bySupplierKeys
        globalKeys)
      (if mrpInvoiceAdj.isSome && cand.mrp_master.isSome then
        compute_mrp_score mrpInvoiceAdj cand.mrp_master
      else 0)
      (compute_cost_score effectiveUnit cand.b_rate)
      (mrpInvoiceAdj.isSome && cand.mrp_master.isSome),
    has_mrp := mrpInvoiceAdj.isSome && cand.mrp_master.isSome }

/-- The best-so-far scan of `match_item` (a later candidate replaces the
current best only on a strictly greater final score). -/
def bestFold (results : List MatchResult) : MatchResult :=
  results.foldl
    (fun best r => if best.final_score < r.final_score then r else best)
    initBest

/-- `find_candidates_tfidf`: the query is the invoice name's residual
token text; an empty query retrieves nothing.  The TF-IDF cosine
ranking itself lives in scikit-learn (outside this repository), so it is
a parameter `rank` returning master indices; `argsort` only ever
produces valid indices, hence `Fin`. -/
def find_candidates (catalog : List CatalogEntry)
    (rank : String → List (Fin catalog.length)) (invoiceName : String) :
    List (Fin catalog.length) :=
  if (tokenize_smart invoiceName).clean_text = "" then []
  else rank invoiceName

/-- `AdvancedPharmaceuticalMatcher.match_item`. -/
def match_item (catalog : List CatalogEntry)
    (rank : String → List (Fin catalog.length))
    (invoiceName supplierClean : String)
    (effectiveUnit mrpInvoiceAdj : Option ℚ)
    (bySupplierKeys : List (String × String)) (globalKeys : List String) :
    MatchResult :=
  if (find_candidates catalog rank invoiceName).isEmpty then empty_result
  else
    bestFold ((find_candidates catalog rank invoiceName).map fun i =>
      evalCandidate (tokenize_smart invoiceName) supplierClean
        effectiveUnit mrpInvoiceAdj bySupplierKeys globalKeys
        (catalog.get i))

/-! ## Auxiliary definitions for the verification -/

/-- Bound invariant for the levenshtein dynamic program: the entries of
a row, starting at column `j`, for source row `i`, are bounded by
`max i column`.  (The true DP value at `(i, column)` is the edit
distance of the prefixes, which satisfies this bound.) -/
def RowBound : List ℕ → ℕ → ℕ → Prop
  | [], _, _ => True
  | v :: vs, i, j => v ≤ max i j ∧ RowBound vs i (j + 1)

/-- The catalog row of the spec's end-to-end scenario (§8): code `P1`,
net cost 1.00, net retail 2.00. -/
def scenarioMaster : MasterRow :=
  { item_code := "P1", item_name := "PARACETAMOL 500MG TAB 20S",
    mrp_master := some 2, b_rate := some 1 }

/-- The one-item catalog of the scenario. -/
def scenarioCatalog : List CatalogEntry := [preprocessMaster scenarioMaster]

/-- Modelled from the spec (§4.2, candidate index): the TF-IDF cosine
ranking lives in scikit-learn, outside this repository; over a
single-entry catalog `argsort` of the one similarity always returns
index 0, whatever the similarity value. -/
def scenarioRank : String → List (Fin scenarioCatalog.length) :=
  fun _ => [⟨0, by decide⟩]

/-- The scenario's invoice line name, "PARACET 500 MG TABLETS 20'S". -/
def scenarioInvoiceName : String :=
  "PARACET 500 MG TABLETS 20" ++ String.mk [aposChar, 'S']

/-- The supplier-specific purchase-history key set making the scenario
supplier "known": the candidate's cleaned name paired with the cleaned
supplier. -/
def scenarioHistoryKeys : List (String × String) :=
  [("PARACETAMOL 500MG TAB 20S", "ACME SUPPLIER")]

/-- The match result the scenario actually produces (established by
`scenario_match_eval` below). -/
def scenarioResult : MatchResult :=
  { item_code := some "P1", item_name := some "PARACETAMOL 500MG TAB 20S",
    mrp_master := some 2,
    name_scores := some
      { sequence_match := 25/28, levenshtein := 11/18, jaccard := 1/3,
        phonetic := 1/3, component_bonus := 2/5 },
    supplier_score := 1, mrp_score := 6/7, cost_score := 1,
    final_score := 6123/8000, has_mrp := true }

/-! ## Theorems -/

theorem keyMatch_upsertUpdated (m : Mapping) (pc code : String)
    (sup : Option String) (b : ℚ) :
    keyMatch (upsertUpdated m b) pc code sup = keyMatch m pc code sup := rfl

/-- Full characterization of the upsert as seen through `findKey`: the
updated first match stays the first match, and an inserted row is found
exactly when no earlier row matched. -/
theorem upsert_findKey (store : List Mapping) (pat pc code name : String)
    (sup : Option String) (b : ℚ) :
    findKey (add_learned_mapping store pat pc code name sup b) pc code sup =
      some (match findKey store pc code sup with
        | some m => upsertUpdated m b
        | none => freshMapping pat pc code name sup b) := by
  induction store with
  | nil =>
      simp [add_learned_mapping, findKey, keyMatch, freshMapping]
  | cons m rest ih =>
      by_cases hk : keyMatch m pc code sup
      · simp [add_learned_mapping, findKey, hk, keyMatch_upsertUpdated]
      · simp [add_learned_mapping, findKey, hk, ih]

/-- C1 — corrected.  In a fresh store, three ingestions of the same
correction at base confidence 0.90 leave stored confidence 0.93 with
`times_confirmed = 3`, where the claimed formula
`min(0.98, previous_confidence + 0.01 × new_times_confirmed)` — the
previous stored confidence being 0.92 after two upserts — would give
0.95: the code recomputes from the base confidence passed to the call,
not from the stored confidence. -/
theorem C1_upsert_counterexample :
    confAt (add_learned_mapping
        (add_learned_mapping []
          "PARA 500" "PARA 500" "P1" "PARACETAMOL" none (90/100))
        "PARA 500" "PARA 500" "P1" "PARACETAMOL" none (90/100))
      "PARA 500" "P1" none = some (92/100) ∧
    confAt (add_learned_mapping (add_learned_mapping
        (add_learned_mapping []
          "PARA 500" "PARA 500" "P1" "PARACETAMOL" none (90/100))
        "PARA 500" "PARA 500" "P1" "PARACETAMOL" none (90/100))
        "PARA 500" "PARA 500" "P1" "PARACETAMOL" none (90/100))
      "PARA 500" "P1" none = some (93/100) ∧
    (findKey (add_learned_mapping (add_learned_mapping
        (add_learned_mapping []
          "PARA 500" "PARA 500" "P1" "PARACETAMOL" none (90/100))
        "PARA 500" "PARA 500" "P1" "PARACETAMOL" none (90/100))
        "PARA 500" "PARA 500" "P1" "PARACETAMOL" none (90/100))
      "PARA 500" "P1" none).map Mapping.times_confirmed = some 3 ∧
    (93/100 : ℚ) ≠ min (98/100 : ℚ) (92/100 + 3 * (1/100)) := by
  refine ⟨?_, ?_, ?_, by norm_num [min_def]⟩ <;>
    · simp only [confAt, upsert_findKey, findKey]
      norm_num [upsertUpdated, freshMapping, keyMatch, min_def]

/-- C1 — amended claim, proved: if a mapping already exists for
(normalized name, supplier, target code), the upsert increments
`times_seen` and `times_confirmed` by one each and sets the stored
confidence to `min(0.98, b + 0.01 × new_times_confirmed)` where `b` is
the base confidence passed to this upsert call (the previously stored
confidence is ignored); otherwise a new row is inserted at the given
base confidence with both counters 1. -/
theorem C1_upsert_amended (store : List Mapping) (pat pc code name : String)
    (sup : Option String) (b : ℚ) :
    findKey (add_learned_mapping store pat pc code name sup b) pc code sup =
      some (match findKey store pc code sup with
        | some m =>
            { m with
              times_seen := m.times_seen + 1,
              times_confirmed := m.times_confirmed + 1,
              confidence :=
                min (98/100 : ℚ)
                  (b + ((m.times_confirmed : ℚ) + 1) * (1/100)) }
        | none =>
            { invoice_pattern := pat, invoice_pattern_clean := pc,
              supplier_pattern := sup, master_item_code := code,
              master_item_name := name, confidence := b,
              times_seen := 1, times_confirmed := 1 }) :=
  upsert_findKey store pat pc code name sup b

/-- The invariant carried across repeated 0.90-base upserts of one key:
the row exists, is capped at 0.98, and its confidence is at most
`0.90 + 0.01 × (times_confirmed + 1)` — which is exactly what the next
upsert will (re-)establish, so confidence never decreases. -/
theorem corrections_iterate_invariant (s0 : List Mapping)
    (pat pc code name : String) (sup : Option String) :
    ∀ n : ℕ, 1 ≤ n →
      ∃ m : Mapping,
        findKey
          ((fun s => add_learned_mapping s pat pc code name sup (90/100))^[n]
            s0) pc code sup = some m ∧
        m.confidence ≤ 98/100 ∧
        m.confidence ≤ 90/100 + ((m.times_confirmed : ℚ) + 1) * (1/100) := by
  intro n
  induction n with
  | zero => omega
  | succ k ih =>
      intro _
      rw [Function.iterate_succ_apply']
      by_cases hk : 1 ≤ k
      · obtain ⟨m, hm, h98, hinv⟩ := ih hk
        refine ⟨upsertUpdated m (90/100), ?_, ?_, ?_⟩
        · rw [upsert_findKey, hm]
        · exact min_le_left _ _
        · refine le_trans (min_le_right _ _) ?_
          simp only [upsertUpdated]
          push_cast
          linarith
      · have hk0 : k = 0 := by omega
        subst hk0
        simp only [Function.iterate_zero_apply]
        rw [upsert_findKey]
        cases hfk : findKey s0 pc code sup with
        | none =>
            refine ⟨freshMapping pat pc code name sup (90/100), rfl, ?_, ?_⟩
            · norm_num [freshMapping]
            · norm_num [freshMapping]
        | some m0 =>
            refine ⟨upsertUpdated m0 (90/100), rfl, min_le_left _ _, ?_⟩
            refine le_trans (min_le_right _ _) ?_
            simp only [upsertUpdated]
            push_cast
            linarith

/-- C3 — confirmed: across any sequence of repeated ingestions of the
same confirmed correction (same key, each upsert at the correction base
confidence 0.90), the stored confidence never decreases from one upsert
to the next and never exceeds 0.98, from any starting store. -/
theorem C3_confidence_monotone_capped (s0 : List Mapping)
    (pat pc code name : String) (sup : Option String) (n : ℕ)
    (hn : 1 ≤ n) :
    ∃ m m' : Mapping,
      findKey
        ((fun s => add_learned_mapping s pat pc code name sup (90/100))^[n]
          s0) pc code sup = some m ∧
      findKey
        ((fun s =>
          add_learned_mapping s pat pc code name sup (90/100))^[n + 1]
          s0) pc code sup = some m' ∧
      m.confidence ≤ m'.confidence ∧
      m.confidence ≤ 98/100 ∧ m'.confidence ≤ 98/100 := by
  obtain ⟨m, hm, h98, hinv⟩ :=
    corrections_iterate_invariant s0 pat pc code name sup n hn
  refine ⟨m, upsertUpdated m (90/100), hm, ?_, ?_, h98, min_le_left _ _⟩
  · rw [Function.iterate_succ_apply', upsert_findKey, hm]
  · exact le_min h98 (le_trans hinv (by simp [upsertUpdated]))

/-- Witness for C3 at a concrete input: one prior ingestion into an
empty store. -/
theorem C3_confidence_monotone_capped_witness :
    ∃ m m' : Mapping,
      findKey
        ((fun s =>
          add_learned_mapping s "AMOX 250" "AMOX 250" "A1" "AMOXICILLIN"
            (some "ACME") (90/100))^[1] []) "AMOX 250" "A1"
        (some "ACME") = some m ∧
      findKey
        ((fun s =>
          add_learned_mapping s "AMOX 250" "AMOX 250" "A1" "AMOXICILLIN"
            (some "ACME") (90/100))^[1 + 1] []) "AMOX 250" "A1"
        (some "ACME") = some m' ∧
      m.confidence ≤ m'.confidence ∧
      m.confidence ≤ 98/100 ∧ m'.confidence ≤ 98/100 :=
  C3_confidence_monotone_capped [] "AMOX 250" "AMOX 250" "A1" "AMOXICILLIN"
    (some "ACME") 1 (le_refl 1)

/-- C4 — confirmed: a final score of exactly 0.80 or above is AUTO_OK,
a score in [0.60, 0.80) is CHECK, and a score below 0.60 is NO_MATCH. -/
theorem C4_classification (fs : ℚ) :
    (80/100 ≤ fs → flagOf fs = "AUTO_OK") ∧
    (60/100 ≤ fs → fs < 80/100 → flagOf fs = "CHECK") ∧
    (fs < 60/100 → flagOf fs = "NO_MATCH") := by
  refine ⟨fun h => ?_, fun h1 h2 => ?_, fun h => ?_⟩
  · simp [flagOf, h]
  · simp [flagOf, h1, not_le.mpr h2]
  · have h2 : ¬(80/100 : ℚ) ≤ fs := not_le.mpr (lt_trans h (by norm_num))
    simp [flagOf, h2, not_le.mpr h]

/-- Witness: the spec's boundary examples 0.80, 0.799999, 0.60,
0.599999. -/
theorem C4_classification_witness :
    flagOf (80/100) = "AUTO_OK" ∧ flagOf (799999/1000000) = "CHECK" ∧
    flagOf (60/100) = "CHECK" ∧ flagOf (599999/1000000) = "NO_MATCH" :=
  ⟨(C4_classification _).1 (by norm_num),
   (C4_classification _).2.1 (by norm_num) (by norm_num),
   (C4_classification _).2.1 (by norm_num) (by norm_num),
   (C4_classification _).2.2 (by norm_num)⟩

/-- C7 — confirmed: tax values in [0, 1] are rates, values above 1 are
percentages, missing or zero values give rate 0; a positive rate
divides the quoted price by (1 + rate), a zero rate leaves it
unchanged. -/
theorem C7_tax_handling (v m : ℚ) (hm : 0 < m) :
    (0 ≤ v → v ≤ 1 → normalize_vat_rate (some v) = v) ∧
    (1 < v → normalize_vat_rate (some v) = v / 100) ∧
    normalize_vat_rate none = 0 ∧
    normalize_vat_rate (some 0) = 0 ∧
    (0 < normalize_vat_rate (some v) →
      adjust_mrp_for_vat (some m) (some v) =
        some (m / (1 + normalize_vat_rate (some v)))) ∧
    (normalize_vat_rate (some v) = 0 →
      adjust_mrp_for_vat (some m) (some v) = some m) := by
  refine ⟨fun h0 h1 => ?_, fun h1 => ?_, rfl, by norm_num [normalize_vat_rate],
    fun hpos => ?_, fun hzero => ?_⟩
  · simp [normalize_vat_rate, not_lt.mpr h0, h1]
  · have h0 : ¬v < 0 := not_lt.mpr (le_of_lt (lt_trans one_pos h1))
    simp [normalize_vat_rate, h0, not_le.mpr h1]
  · simp only [adjust_mrp_for_vat, if_neg (not_le.mpr hm),
      if_neg (not_le.mpr hpos)]
  · simp only [adjust_mrp_for_vat, if_neg (not_le.mpr hm), hzero]
    norm_num

/-- Witness: the spec's examples — tax field 0.05 is the rate 0.05, tax
field 5 is 5 %, and quoted 105 at tax field 5 adjusts to exactly 100. -/
theorem C7_tax_handling_witness :
    normalize_vat_rate (some (5/100)) = 5/100 ∧
    normalize_vat_rate (some 5) = 5/100 ∧
    adjust_mrp_for_vat (some 105) (some 5) = some 100 := by
  have h1 := C7_tax_handling (5/100) 105 (by norm_num)
  have h2 := C7_tax_handling 5 105 (by norm_num)
  have hr : normalize_vat_rate (some (5 : ℚ)) = 5/100 := by
    rw [h2.2.1 (by norm_num)]
  refine ⟨h1.1 (by norm_num) (by norm_num), hr, ?_⟩
  rw [h2.2.2.2.2.1 (by rw [hr]; norm_num), hr]
  norm_num

/-- C8 — confirmed: the per-line loop of the drivers emits exactly one
output record per line with a non-empty cleaned name, in order, and
nothing for a line with an empty cleaned name; each record depends only
on its own line, so a skipped line affects no other line's result. -/
theorem C8_empty_name_skip {α β : Type} (nameOf : α → String) (f : α → β)
    (lines : List α) :
    run_lines nameOf f lines =
      (lines.filter fun l => clean (nameOf l) ≠ "").map f := by
  have go : ∀ (ls : List α) (acc : List β),
      ls.foldl
        (fun acc line =>
          if clean (nameOf line) = "" then acc else acc ++ [f line]) acc =
        acc ++ (ls.filter fun l => clean (nameOf l) ≠ "").map f := by
    intro ls
    induction ls with
    | nil => simp
    | cons l lt ih =>
        intro acc
        by_cases hl : clean (nameOf l) = ""
        · simp [hl, ih]
        · simp [hl, ih]
  simpa using go lines []

/-- C10 — confirmed: a missing corrections file, an unreadable one, one
lacking a required column, and one with no genuinely corrected row all
return 0 and leave both the learned mappings and the audit trail
untouched. -/
theorem C10_corrections_noop (cols : List String) (rows : List CorrRow)
    (master : List MasterRow) (cleanFunc : String → String)
    (st : LearnState) :
    process_corrections_file .missing master cleanFunc st = (st, 0) ∧
    process_corrections_file .unreadable master cleanFunc st = (st, 0) ∧
    (¬(cols.contains "Invoice_Item_Name" ∧
        cols.contains "Suggested_Item_Code" ∧
        cols.contains "Corrected_Item_Code") →
      process_corrections_file (.table cols rows) master cleanFunc st =
        (st, 0)) ∧
    ((∀ r ∈ rows, ¬(r.corrected_item_code.isSome ∧
        r.corrected_item_code ≠ r.suggested_item_code)) →
      process_corrections_file (.table cols rows) master cleanFunc st =
        (st, 0)) := by
  refine ⟨rfl, rfl, fun hmiss => ?_, fun hnone => ?_⟩
  · have hb : (cols.contains "Invoice_Item_Name" &&
        cols.contains "Suggested_Item_Code" &&
        cols.contains "Corrected_Item_Code") = false := by
      cases h : (cols.contains "Invoice_Item_Name" &&
          cols.contains "Suggested_Item_Code" &&
          cols.contains "Corrected_Item_Code") with
      | false => rfl
      | true =>
          exfalso
          apply hmiss
          simp only [Bool.and_eq_true] at h
          exact ⟨h.1.1, h.1.2, h.2⟩
    simp only [process_corrections_file]
    rw [hb]
    rfl
  · by_cases hcols : (cols.contains "Invoice_Item_Name" &&
        cols.contains "Suggested_Item_Code" &&
        cols.contains "Corrected_Item_Code") = true
    · have hfil : rows.filter (fun r =>
          r.corrected_item_code.isSome &&
            r.corrected_item_code ≠ r.suggested_item_code) = [] := by
        rw [List.filter_eq_nil_iff]
        intro r hr
        intro hp
        apply hnone r hr
        simp only [Bool.and_eq_true, decide_eq_true_eq] at hp
        exact ⟨hp.1, hp.2⟩
      simp only [process_corrections_file]
      rw [hcols, hfil]
      rfl
    · simp only [process_corrections_file]
      rw [Bool.eq_false_iff.mpr hcols]
      rfl

/-- Witness for C10 at concrete inputs: a missing file, an unreadable
file, a table lacking two required columns, and a table whose only row
has no corrected code all return count 0 with the state unchanged. -/
theorem C10_corrections_noop_witness :
    process_corrections_file .missing [] (fun s => s)
      ⟨[], []⟩ = (⟨[], []⟩, 0) ∧
    process_corrections_file .unreadable [] (fun s => s)
      ⟨[], []⟩ = (⟨[], []⟩, 0) ∧
    process_corrections_file
        (.table ["Invoice_Item_Name"]
          [⟨"I1", "1", "N", "S", some "X", "XN", 0, some "Y", ""⟩])
        [] (fun s => s) ⟨[], []⟩ = (⟨[], []⟩, 0) ∧
    process_corrections_file
        (.table ["Invoice_Item_Name", "Suggested_Item_Code",
            "Corrected_Item_Code"]
          [⟨"I1", "1", "N", "S", some "X", "XN", 0, none, ""⟩])
        [] (fun s => s) ⟨[], []⟩ = (⟨[], []⟩, 0) := by
  have h1 := C10_corrections_noop ["Invoice_Item_Name"]
    [⟨"I1", "1", "N", "S", some "X", "XN", 0, some "Y", ""⟩]
    [] (fun s => s) ⟨[], []⟩
  have h2 := C10_corrections_noop
    ["Invoice_Item_Name", "Suggested_Item_Code", "Corrected_Item_Code"]
    [⟨"I1", "1", "N", "S", some "X", "XN", 0, none, ""⟩]
    [] (fun s => s) ⟨[], []⟩
  exact ⟨h1.1, h1.2.1, h1.2.2.1 (by decide), h2.2.2.2 (by decide)⟩

/-! ### C5: learned-mapping lookup -/

theorem lookupBetter_irrefl (m : Mapping) : lookupBetter m m = false := by
  simp [lookupBetter]

theorem lookupBetter_asymm {x y : Mapping} (h : lookupBetter x y = true) :
    lookupBetter y x = false := by
  cases hx : x.supplier_pattern.isSome <;>
    cases hy : y.supplier_pattern.isSome <;>
      simp [lookupBetter, hx, hy] at h ⊢ <;> linarith

theorem lookupBetter_negtrans {x y z : Mapping}
    (hxy : lookupBetter x y = false) (hyz : lookupBetter y z = false) :
    lookupBetter x z = false := by
  cases hx : x.supplier_pattern.isSome <;>
    cases hy : y.supplier_pattern.isSome <;>
      cases hz : z.supplier_pattern.isSome <;>
        simp [lookupBetter, hx, hy, hz] at hxy hyz ⊢ <;> linarith

theorem lookupBetter_false_same_rank {x m : Mapping}
    (h : lookupBetter x m = false)
    (hrank : x.supplier_pattern.isSome = m.supplier_pattern.isSome) :
    x.confidence ≤ m.confidence := by
  cases hx : x.supplier_pattern.isSome <;>
    cases hm : m.supplier_pattern.isSome <;>
      rw [hx, hm] at hrank <;> simp [lookupBetter, hx, hm] at h <;>
        first
        | exact h
        | exact absurd hrank (by simp)

theorem pickTop_none_iff (l : List Mapping) : pickTop l = none ↔ l = [] := by
  cases l with
  | nil => simp [pickTop]
  | cons m rest =>
      constructor
      · intro h
        exfalso
        rw [pickTop] at h
        cases hr : pickTop rest with
        | none =>
            rw [hr] at h
            dsimp only at h
            exact absurd h (by simp)
        | some b =>
            rw [hr] at h
            dsimp only at h
            by_cases hb : lookupBetter b m = true
            · rw [if_pos hb] at h
              exact absurd h (by simp)
            · rw [if_neg hb] at h
              exact absurd h (by simp)
      · intro h
        exact absurd h (by simp)

theorem pickTop_spec (l : List Mapping) (m : Mapping)
    (h : pickTop l = some m) :
    m ∈ l ∧ ∀ x ∈ l, lookupBetter x m = false := by
  induction l generalizing m with
  | nil => simp [pickTop] at h
  | cons a rest ih =>
      rw [pickTop] at h
      cases hr : pickTop rest with
      | none =>
          rw [hr] at h
          dsimp only at h
          have hm : a = m := by simpa using h
          subst hm
          have hrest : rest = [] := (pickTop_none_iff rest).mp hr
          subst hrest
          refine ⟨List.mem_cons_self a [], ?_⟩
          intro x hx
          have : x = a := by simpa using hx
          subst this
          exact lookupBetter_irrefl x
      | some b =>
          rw [hr] at h
          dsimp only at h
          obtain ⟨hbMem, hbBest⟩ := ih b hr
          by_cases hbet : lookupBetter b a = true
          · rw [if_pos hbet] at h
            have hm : b = m := by simpa using h
            subst hm
            refine ⟨List.mem_cons_of_mem a hbMem, ?_⟩
            intro x hx
            rcases List.mem_cons.mp hx with hxa | hx'
            · subst hxa
              exact lookupBetter_asymm hbet
            · exact hbBest x hx'
          · rw [if_neg hbet] at h
            have hm : a = m := by simpa using h
            subst hm
            refine ⟨List.mem_cons_self a rest, ?_⟩
            intro x hx
            rcases List.mem_cons.mp hx with hxa | hx'
            · subst hxa
              exact lookupBetter_irrefl x
            · exact lookupBetter_negtrans (hbBest x hx')
                (Bool.eq_false_iff.mpr hbet)

/-- C5 — confirmed: with a non-empty normalized supplier, lookup
returns only rows matching the normalized name with the given supplier
or no supplier and confidence at least the threshold; a
supplier-specific row is preferred over a supplier-agnostic one, and
among rows of equal supplier specificity the returned row has maximal
confidence; when nothing qualifies it returns none. -/
theorem C5_lookup_precedence (store : List Mapping) (nm sup : String)
    (minConf : ℚ) (hsup : sup ≠ "") :
    (lookup_learned_mapping store nm sup minConf = none ↔
      ∀ m ∈ store, lookupQual m nm sup minConf = false) ∧
    ∀ m : Mapping, lookup_learned_mapping store nm sup minConf = some m →
      m ∈ store ∧ lookupQual m nm sup minConf = true ∧
      ((∃ m' ∈ store, lookupQual m' nm sup minConf = true ∧
          m'.supplier_pattern = some sup) →
        m.supplier_pattern = some sup) ∧
      ∀ m' ∈ store, lookupQual m' nm sup minConf = true →
        m'.supplier_pattern.isSome = m.supplier_pattern.isSome →
        m'.confidence ≤ m.confidence := by
  have hlk : lookup_learned_mapping store nm sup minConf =
      pickTop (store.filter fun m => lookupQual m nm sup minConf) := by
    rw [lookup_learned_mapping, if_pos hsup]
  constructor
  · rw [hlk, pickTop_none_iff, List.filter_eq_nil_iff]
    constructor
    · intro h m hm
      exact Bool.eq_false_iff.mpr (h m hm)
    · intro h m hm
      exact Bool.eq_false_iff.mp (h m hm)
  · intro m hm
    rw [hlk] at hm
    obtain ⟨hmem, hbest⟩ := pickTop_spec _ m hm
    have hmf := List.mem_filter.mp hmem
    refine ⟨hmf.1, hmf.2, ?_, ?_⟩
    · rintro ⟨m', hm'mem, hm'q, hm'sup⟩
      have hm'f : m' ∈ store.filter fun x => lookupQual x nm sup minConf :=
        List.mem_filter.mpr ⟨hm'mem, hm'q⟩
      have hnb := hbest m' hm'f
      have hmsome : m.supplier_pattern.isSome = true := by
        by_contra hns
        have hns' : m.supplier_pattern.isSome = false :=
          Bool.eq_false_iff.mpr hns
        have : lookupBetter m' m = true := by
          simp [lookupBetter, hns', hm'sup]
        rw [this] at hnb
        exact Bool.true_eq_false ▸ hnb.symm ▸ (by simp at hnb)
      have hq := hmf.2
      simp only [lookupQual, Bool.and_eq_true, Bool.or_eq_true,
        decide_eq_true_eq] at hq
      rcases hq.1.2 with hcase | hcase
      · exact hcase
      · rw [hcase] at hmsome
        simp at hmsome
    · intro m' hm'mem hm'q hrank
      have hm'f : m' ∈ store.filter fun x => lookupQual x nm sup minConf :=
        List.mem_filter.mpr ⟨hm'mem, hm'q⟩
      exact lookupBetter_false_same_rank (hbest m' hm'f) hrank

/-- Witness for C5: a store holding a high-confidence supplier-agnostic
row and a lower-confidence supplier-specific row; the specific row
wins. -/
theorem C5_lookup_precedence_witness :
    ∃ m : Mapping,
      lookup_learned_mapping
        [⟨"PARA", "PARA", none, "C1", "X", 95/100, 1, 1⟩,
         ⟨"PARA", "PARA", some "ACME", "C2", "Y", 9/10, 1, 1⟩]
        "PARA" "ACME" (3/4) = some m ∧
      m.supplier_pattern = some "ACME" := by
  have h := C5_lookup_precedence
    [⟨"PARA", "PARA", none, "C1", "X", 95/100, 1, 1⟩,
     ⟨"PARA", "PARA", some "ACME", "C2", "Y", 9/10, 1, 1⟩]
    "PARA" "ACME" (3/4) (by decide)
  cases hl : lookup_learned_mapping
      [⟨"PARA", "PARA", none, "C1", "X", 95/100, 1, 1⟩,
       ⟨"PARA", "PARA", some "ACME", "C2", "Y", 9/10, 1, 1⟩]
      "PARA" "ACME" (3/4) with
  | none =>
      have hq := (h.1.mp hl)
        ⟨"PARA", "PARA", some "ACME", "C2", "Y", 9/10, 1, 1⟩ (by simp)
      exact absurd hq (by norm_num [lookupQual])
  | some m =>
      refine ⟨m, rfl, ?_⟩
      exact (h.2 m hl).2.2.1
        ⟨⟨"PARA", "PARA", some "ACME", "C2", "Y", 9/10, 1, 1⟩,
          by simp, by norm_num [lookupQual], rfl⟩

/-! ### C6: candidate selection -/

/-- Behaviour of the best-so-far scan from an arbitrary running best:
either nothing beats it and it survives, or the scan returns the first
list element that strictly beats the running best and is never strictly
beaten later. -/
theorem bestFold_go (l : List MatchResult) (b : MatchResult) :
    (l.foldl
        (fun best r =>
          if best.final_score < r.final_score then r else best) b = b ∧
      ∀ r ∈ l, r.final_score ≤ b.final_score) ∨
    (∃ pre best post, l = pre ++ best :: post ∧
      l.foldl
        (fun best r =>
          if best.final_score < r.final_score then r else best) b = best ∧
      b.final_score < best.final_score ∧
      (∀ r ∈ pre, r.final_score < best.final_score) ∧
      (∀ r ∈ l, r.final_score ≤ best.final_score)) := by
  induction l generalizing b with
  | nil => exact Or.inl ⟨rfl, by simp⟩
  | cons c t ih =>
      by_cases hc : b.final_score < c.final_score
      · right
        rcases ih c with ⟨hres, hall⟩ | ⟨pre, best, post, ht, hres, hcb, hpre, hall⟩
        · refine ⟨[], c, t, by simp, ?_, hc, by simp, ?_⟩
          · simpa [List.foldl_cons, if_pos hc] using hres
          · intro r hr
            rcases List.mem_cons.mp hr with hrc | hrt
            · exact hrc ▸ le_refl _
            · exact hall r hrt
        · refine ⟨c :: pre, best, post, by rw [ht]; simp, ?_, lt_trans hc hcb, ?_, ?_⟩
          · simpa [List.foldl_cons, if_pos hc] using hres
          · intro r hr
            rcases List.mem_cons.mp hr with hrc | hrp
            · exact hrc ▸ hcb
            · exact hpre r hrp
          · intro r hr
            rcases List.mem_cons.mp hr with hrc | hrt
            · exact hrc ▸ le_of_lt hcb
            · exact hall r (ht ▸ hrt)
      · have hcle : c.final_score ≤ b.final_score := not_lt.mp hc
        rcases ih b with ⟨hres, hall⟩ | ⟨pre, best, post, ht, hres, hcb, hpre, hall⟩
        · left
          refine ⟨?_, ?_⟩
          · simpa [List.foldl_cons, if_neg hc] using hres
          · intro r hr
            rcases List.mem_cons.mp hr with hrc | hrt
            · exact hrc ▸ hcle
            · exact hall r hrt
        · right
          refine ⟨c :: pre, best, post, by rw [ht]; simp, ?_, hcb, ?_, ?_⟩
          · simpa [List.foldl_cons, if_neg hc] using hres
          · intro r hr
            rcases List.mem_cons.mp hr with hrc | hrp
            · exact hrc ▸ lt_of_le_of_lt hcle hcb
            · exact hpre r hrp
          · intro r hr
            rcases List.mem_cons.mp hr with hrc | hrt
            · exact hrc ▸ le_of_lt (lt_of_le_of_lt hcle hcb)
            · exact hall r (ht ▸ hrt)

/-- C6 — confirmed: over a non-empty evaluated candidate list (all
fused scores are non-negative, which C9 establishes for the real
ensemble), the scan returns the first candidate attaining the maximal
final score: everything before it scores strictly less, everything in
the list scores no more. -/
theorem C6_candidate_selection (results : List MatchResult)
    (hne : results ≠ [])
    (hnn : ∀ r ∈ results, 0 ≤ r.final_score) :
    ∃ pre best post, results = pre ++ best :: post ∧
      bestFold results = best ∧
      (∀ r ∈ pre, r.final_score < best.final_score) ∧
      (∀ r ∈ results, r.final_score ≤ best.final_score) := by
  rcases bestFold_go results initBest with ⟨_, hall⟩ | ⟨pre, best, post, h1, h2, _, h4, h5⟩
  · obtain ⟨c, t, rfl⟩ := List.exists_cons_of_ne_nil hne
    have h0 := hnn c (List.mem_cons_self c t)
    have hle := hall c (List.mem_cons_self c t)
    have : (initBest.final_score : ℚ) = -1 := rfl
    rw [this] at hle
    linarith
  · exact ⟨pre, best, post, h1, h2, h4, h5⟩

/-- Witness for C6: two tied candidates — the first is kept. -/
theorem C6_candidate_selection_witness :
    ∃ pre best post,
      [(⟨some "A", none, none, none, 0, 0, 0, 1/2, false⟩ : MatchResult),
       (⟨some "B", none, none, none, 0, 0, 0, 1/2, false⟩ : MatchResult)] =
        pre ++ best :: post ∧
      bestFold
        [(⟨some "A", none, none, none, 0, 0, 0, 1/2, false⟩ : MatchResult),
         (⟨some "B", none, none, none, 0, 0, 0, 1/2, false⟩ : MatchResult)] =
        best ∧
      (∀ r ∈ pre, r.final_score < best.final_score) ∧
      (∀ r ∈
        [(⟨some "A", none, none, none, 0, 0, 0, 1/2, false⟩ : MatchResult),
         (⟨some "B", none, none, none, 0, 0, 0, 1/2, false⟩ : MatchResult)],
        r.final_score ≤ best.final_score) :=
  C6_candidate_selection _ (by simp) (by
    intro r hr
    rcases List.mem_cons.mp hr with h | h
    · rw [h]; norm_num
    · have hB : r =
          (⟨some "B", none, none, none, 0, 0, 0, 1/2, false⟩ : MatchResult) :=
        by simpa using h
      rw [hB]; norm_num)

/-! ### C9: every fused score is non-negative; retrieval shapes the
result -/

theorem levRow_bound (c1 : Char) :
    ∀ (s2 : List Char) (prev : List ℕ) (left i j : ℕ),
      RowBound prev i j → RowBound (levRow c1 s2 prev left) (i + 1) (j + 1) := by
  intro s2
  induction s2 with
  | nil =>
      intro prev left i j _
      cases prev <;> simp [levRow, RowBound]
  | cons c2 s2t ih =>
      intro prev left i j hp
      match prev with
      | [] => simp [levRow, RowBound]
      | [p0] => simp [levRow, RowBound]
      | p0 :: p1 :: ps =>
          simp only [RowBound] at hp
          simp only [levRow, RowBound]
          refine ⟨?_, ih (p1 :: ps) _ i (j + 1) hp.2⟩
          have hv : min (p1 + 1)
              (min (left + 1) (p0 + (if c1 = c2 then 0 else 1))) ≤
              p0 + (if c1 = c2 then 0 else 1) :=
            le_trans (min_le_right _ _) (min_le_right _ _)
          have hc : (if c1 = c2 then 0 else 1) ≤ 1 := by split <;> omega
          have hp0 := hp.1
          omega

theorem levRows_bound (s2 : List Char) :
    ∀ (s1 : List Char) (prev : List ℕ) (i : ℕ),
      RowBound prev i 0 →
      RowBound (levRows s2 s1 prev i) (i + s1.length) 0 := by
  intro s1
  induction s1 with
  | nil =>
      intro prev i hp
      simpa [levRows] using hp
  | cons c1 t ih =>
      intro prev i hp
      rw [levRows]
      have hrow : RowBound ((i + 1) :: levRow c1 s2 prev (i + 1)) (i + 1) 0 := by
        simp only [RowBound]
        exact ⟨le_max_left _ _, levRow_bound c1 s2 prev (i + 1) i 0 hp⟩
      have hres := ih ((i + 1) :: levRow c1 s2 prev (i + 1)) (i + 1) hrow
      have harith : i + 1 + t.length = i + (c1 :: t).length := by
        simp only [List.length_cons]
        omega
      rw [harith] at hres
      exact hres

theorem RowBound_range' : ∀ (k j : ℕ), RowBound (List.range' j k) 0 j := by
  intro k
  induction k with
  | zero => intro j; simp [List.range', RowBound]
  | succ n ih =>
      intro j
      exact ⟨le_max_right 0 j, ih (j + 1)⟩

theorem RowBound_getLastD (row : List ℕ) :
    ∀ (i j d : ℕ), RowBound row i j → row ≠ [] →
      row.getLastD d ≤ max i (j + row.length - 1) := by
  induction row with
  | nil => intro i j d _ h; exact absurd rfl h
  | cons v vs ih =>
      intro i j d hp _
      rw [List.getLastD_cons]
      by_cases hvs : vs = []
      · subst hvs
        have := hp.1
        simpa [List.getLastD] using this
      · have hrec := ih i (j + 1) v hp.2 hvs
        have harith : j + 1 + vs.length - 1 = j + (v :: vs).length - 1 := by
          simp only [List.length_cons]
          omega
        rw [harith] at hrec
        exact hrec

theorem levRow_length (c1 : Char) :
    ∀ (s2 : List Char) (prev : List ℕ) (left : ℕ),
      (levRow c1 s2 prev left).length = min s2.length (prev.length - 1) := by
  intro s2
  induction s2 with
  | nil => intro prev left; cases prev <;> simp [levRow]
  | cons c2 t ih =>
      intro prev left
      match prev with
      | [] => simp [levRow]
      | [p0] => simp [levRow]
      | p0 :: p1 :: ps =>
          simp only [levRow, List.length_cons, ih]
          omega

theorem levRows_length (s2 : List Char) :
    ∀ (s1 : List Char) (prev : List ℕ) (i : ℕ),
      prev.length = s2.length + 1 →
      (levRows s2 s1 prev i).length = s2.length + 1 := by
  intro s1
  induction s1 with
  | nil => intro prev i h; simpa [levRows] using h
  | cons c1 t ih =>
      intro prev i h
      rw [levRows]
      apply ih
      simp only [List.length_cons, levRow_length, h]
      omega

theorem levDistCore_le (s1 s2 : List Char) :
    levDistCore s1 s2 ≤ max s1.length s2.length := by
  rw [levDistCore]
  split
  · exact le_max_left _ _
  · rename_i h2
    have hinit : RowBound (List.range (s2.length + 1)) 0 0 := by
      rw [List.range_eq_range']
      exact RowBound_range' (s2.length + 1) 0
    have hrows := levRows_bound s2 s1 (List.range (s2.length + 1)) 0 hinit
    have hlen : (levRows s2 s1 (List.range (s2.length + 1)) 0).length =
        s2.length + 1 := by
      apply levRows_length
      simp
    have hne : levRows s2 s1 (List.range (s2.length + 1)) 0 ≠ [] := by
      intro hnil
      rw [hnil] at hlen
      simp at hlen
    have hfin := RowBound_getLastD _ (0 + s1.length) 0 0 hrows hne
    rw [hlen] at hfin
    simpa using hfin

theorem levenshtein_distance_le (s1 s2 : List Char) :
    levenshtein_distance s1 s2 ≤ max s1.length s2.length := by
  rw [levenshtein_distance]
  split
  · exact le_trans (levDistCore_le s2 s1) (le_of_eq (max_comm _ _))
  · exact levDistCore_le s1 s2

theorem levenshtein_similarity_nonneg (a b : String) :
    0 ≤ levenshtein_similarity a b := by
  rw [levenshtein_similarity]
  split
  · exact le_refl 0
  · show (0:ℚ) ≤ if max a.toList.length b.toList.length = 0 then 1
      else 1 - (levenshtein_distance a.toList b.toList : ℚ) /
        ((max a.toList.length b.toList.length : ℕ) : ℚ)
    split
    · norm_num
    · rename_i hml
      have hd := levenshtein_distance_le a.toList b.toList
      have hpos : 0 < max a.toList.length b.toList.length :=
        Nat.pos_of_ne_zero hml
      have hle : ((levenshtein_distance a.toList b.toList : ℚ)) /
          ((max a.toList.length b.toList.length : ℕ) : ℚ) ≤ 1 := by
        rw [div_le_one (by exact_mod_cast hpos)]
        exact_mod_cast hd
      linarith

theorem sequence_ratio_nonneg (a b : String) : 0 ≤ sequence_ratio a b := by
  rw [sequence_ratio]
  split
  · norm_num
  · positivity

theorem phonetic_similarity_nonneg (t1 t2 : String) :
    0 ≤ phonetic_similarity t1 t2 := by
  rw [phonetic_similarity]
  split
  · exact le_refl 0
  · show (0:ℚ) ≤
      if (wsSplitGo [] (t1.toList.map Char.toUpper)).isEmpty ∨
          (wsSplitGo [] (t2.toList.map Char.toUpper)).isEmpty then 0
      else
        ((((wsSplitGo [] (t1.toList.map Char.toUpper)).map soundex).countP
          fun c =>
            ((wsSplitGo [] (t2.toList.map Char.toUpper)).map
              soundex).contains c : ℕ) : ℚ) /
        (max ((((wsSplitGo [] (t1.toList.map Char.toUpper)).map
            soundex).length : ℕ) : ℚ)
          ((((wsSplitGo [] (t2.toList.map Char.toUpper)).map
            soundex).length : ℕ) : ℚ))
    split
    · exact le_refl 0
    · positivity

theorem jaccard_similarity_nonneg (t1 t2 : List String) :
    0 ≤ jaccard_similarity t1 t2 := by
  rw [jaccard_similarity]
  split
  · exact le_refl 0
  · show (0:ℚ) ≤
      if (t1 ++ t2).dedup.length = 0 then 0
      else ((t1.dedup.countP fun x => t2.contains x : ℕ) : ℚ) /
        (((t1 ++ t2).dedup.length : ℕ) : ℚ)
    split
    · exact le_refl 0
    · positivity

theorem compute_similarity_scores_nonneg (inv cand : Parsed) :
    0 ≤ (compute_similarity_scores inv cand).sequence_match ∧
    0 ≤ (compute_similarity_scores inv cand).levenshtein ∧
    0 ≤ (compute_similarity_scores inv cand).jaccard ∧
    0 ≤ (compute_similarity_scores inv cand).phonetic ∧
    0 ≤ (compute_similarity_scores inv cand).component_bonus := by
  refine ⟨sequence_ratio_nonneg _ _, levenshtein_similarity_nonneg _ _,
    jaccard_similarity_nonneg _ _, phonetic_similarity_nonneg _ _, ?_⟩
  show 0 ≤ min _ _
  refine le_min (add_nonneg ?_ ?_) (by norm_num)
  · rw [dosageBonus]
    split
    · split
      · positivity
      · exact le_refl 0
    · exact le_refl 0
  · rw [formBonus]
    split <;> norm_num

theorem compute_supplier_score_nonneg (cn sc : String)
    (bySup : List (String × String)) (glob : List String) :
    0 ≤ compute_supplier_score cn sc bySup glob := by
  rw [compute_supplier_score]
  split
  · norm_num
  · split <;> norm_num

theorem compute_mrp_score_nonneg (mi mm : Option ℚ) :
    0 ≤ compute_mrp_score mi mm := by
  rcases mi with _ | vi <;> rcases mm with _ | vm <;> try exact le_refl 0
  show (0:ℚ) ≤
    if vi ≤ 0 ∨ vm ≤ 0 then 0 else max 0 (1 - |vi - vm| / max vi vm * 3)
  split
  · exact le_refl 0
  · exact le_max_left 0 _

theorem compute_cost_score_nonneg (e b : Option ℚ) :
    0 ≤ compute_cost_score e b := by
  rcases e with _ | ve <;> rcases b with _ | vb <;> try exact le_refl 0
  show (0:ℚ) ≤
    if ve ≤ 0 ∨ vb ≤ 0 then 0
    else if |ve / vb - 1| ≤ 10/100 then 1
    else if |ve / vb - 1| ≤ 40/100 then 1/2
    else 0
  split
  · exact le_refl 0
  · split
    · norm_num
    · split <;> norm_num

theorem compute_final_score_nonneg (ns : NameScores) (ss ms cs : ℚ)
    (hasMrp : Bool)
    (h1 : 0 ≤ ns.sequence_match) (h2 : 0 ≤ ns.levenshtein)
    (h3 : 0 ≤ ns.jaccard) (h4 : 0 ≤ ns.phonetic)
    (h5 : 0 ≤ ns.component_bonus) (hss : 0 ≤ ss) (hms : 0 ≤ ms)
    (hcs : 0 ≤ cs) :
    0 ≤ compute_final_score ns ss ms cs hasMrp := by
  show (0:ℚ) ≤
    if hasMrp then
      (45/100) * ((25/100) * ns.sequence_match + (20/100) * ns.levenshtein +
        (20/100) * ns.jaccard + (15/100) * ns.phonetic +
        (20/100) * ns.component_bonus) +
        (25/100) * ss + (20/100) * ms + (10/100) * cs
    else
      (55/100) * ((25/100) * ns.sequence_match + (20/100) * ns.levenshtein +
        (20/100) * ns.jaccard + (15/100) * ns.phonetic +
        (20/100) * ns.component_bonus) +
        (30/100) * ss + (15/100) * cs
  split <;> nlinarith

theorem evalCandidate_final_nonneg (invParsed : Parsed) (sc : String)
    (eup mrpAdj : Option ℚ) (bySup : List (String × String))
    (glob : List String) (cand : CatalogEntry) :
    0 ≤ (evalCandidate invParsed sc eup mrpAdj bySup glob cand).final_score := by
  obtain ⟨h1, h2, h3, h4, h5⟩ :=
    compute_similarity_scores_nonneg invParsed cand.parsed
  show 0 ≤ compute_final_score _ _ _ _ _
  refine compute_final_score_nonneg _ _ _ _ _ h1 h2 h3 h4 h5
    (compute_supplier_score_nonneg _ _ _ _) ?_
    (compute_cost_score_nonneg _ _)
  split
  · exact compute_mrp_score_nonneg _ _
  · exact le_refl 0

/-- C9 — confirmed: when retrieval returns no candidate, `match_item`
returns the empty result (final score 0, no suggested code or name);
when retrieval returns any candidate, the result is a fully evaluated
candidate, carrying that candidate's catalog code and name and a
non-negative final score — the first candidate always replaces the −1.0
sentinel because every fused score is non-negative.  A NO_MATCH-tier
line can therefore still carry a suggested catalog code. -/
theorem C9_retrieval_behaviour (catalog : List CatalogEntry)
    (rank : String → List (Fin catalog.length))
    (invoiceName supplierClean : String) (eup mrpAdj : Option ℚ)
    (bySup : List (String × String)) (glob : List String) :
    (find_candidates catalog rank invoiceName = [] →
      match_item catalog rank invoiceName supplierClean eup mrpAdj bySup
        glob = empty_result) ∧
    (find_candidates catalog rank invoiceName ≠ [] →
      ∃ i : Fin catalog.length,
        match_item catalog rank invoiceName supplierClean eup mrpAdj bySup
            glob =
          evalCandidate (tokenize_smart invoiceName) supplierClean eup
            mrpAdj bySup glob (catalog.get i) ∧
        (match_item catalog rank invoiceName supplierClean eup mrpAdj bySup
            glob).item_code = some (catalog.get i).item_code ∧
        (match_item catalog rank invoiceName supplierClean eup mrpAdj bySup
            glob).item_name = some (catalog.get i).item_name ∧
        0 ≤ (match_item catalog rank invoiceName supplierClean eup mrpAdj
            bySup glob).final_score) ∧
    empty_result.final_score = 0 ∧ empty_result.item_code = none := by
  refine ⟨fun hemp => ?_, fun hne => ?_, rfl, rfl⟩
  · rw [match_item]
    simp only [hemp, List.isEmpty_nil, if_true]
  · set cands := find_candidates catalog rank invoiceName with hcands
    set results := cands.map fun i =>
      evalCandidate (tokenize_smart invoiceName) supplierClean eup mrpAdj
        bySup glob (catalog.get i) with hresults
    have hrne : results ≠ [] := by
      rw [hresults]
      simpa using hne
    have hrnn : ∀ r ∈ results, 0 ≤ r.final_score := by
      intro r hr
      rw [hresults] at hr
      obtain ⟨i, _, rfl⟩ := List.mem_map.mp hr
      exact evalCandidate_final_nonneg _ _ _ _ _ _ _
    have hmi : match_item catalog rank invoiceName supplierClean eup mrpAdj
        bySup glob = bestFold results := by
      rw [match_item]
      simp only [← hcands, ← hresults]
      rw [if_neg (by rw [hcands]; simpa [List.isEmpty_iff] using hne)]
    rcases bestFold_go results initBest with ⟨_, hall⟩ | ⟨pre, best, post, h1, h2, _, _, _⟩
    · obtain ⟨c, t, hct⟩ := List.exists_cons_of_ne_nil hrne
      have h0 := hrnn c (by rw [hct]; exact List.mem_cons_self c t)
      have hle := hall c (by rw [hct]; exact List.mem_cons_self c t)
      have hinit : (initBest.final_score : ℚ) = -1 := rfl
      rw [hinit] at hle
      linarith
    · have hbmem : best ∈ results := by
        rw [h1]
        exact List.mem_append_right pre (List.mem_cons_self best post)
      rw [hresults] at hbmem
      obtain ⟨i, _, hieq⟩ := List.mem_map.mp hbmem
      refine ⟨i, ?_, ?_, ?_, ?_⟩
      · rw [hmi]
        show bestFold results = _
        rw [show bestFold results = best from h2, hieq]
      · rw [hmi, show bestFold results = best from h2, ← hieq]
        rfl
      · rw [hmi, show bestFold results = best from h2, ← hieq]
        rfl
      · rw [hmi, show bestFold results = best from h2, ← hieq]
        exact evalCandidate_final_nonneg _ _ _ _ _ _ _

/-- Witness for C9 at concrete inputs: an empty-name query retrieves
nothing and yields the empty result; a real query against a one-item
catalog yields that item's code with a non-negative score. -/
theorem C9_retrieval_behaviour_witness :
    match_item scenarioCatalog scenarioRank "" "S" none none [] [] =
      empty_result ∧
    ∃ i : Fin scenarioCatalog.length,
      match_item scenarioCatalog scenarioRank "AMOXICILLIN" "S" none none
          [] [] =
        evalCandidate (tokenize_smart "AMOXICILLIN") "S" none none [] []
          (scenarioCatalog.get i) ∧
      (match_item scenarioCatalog scenarioRank "AMOXICILLIN" "S" none none
          [] []).item_code = some (scenarioCatalog.get i).item_code ∧
      (match_item scenarioCatalog scenarioRank "AMOXICILLIN" "S" none none
          [] []).item_name = some (scenarioCatalog.get i).item_name ∧
      0 ≤ (match_item scenarioCatalog scenarioRank "AMOXICILLIN" "S" none
          none [] []).final_score :=
  ⟨(C9_retrieval_behaviour scenarioCatalog scenarioRank "" "S" none none
      [] []).1 rfl,
   (C9_retrieval_behaviour scenarioCatalog scenarioRank "AMOXICILLIN" "S"
      none none [] []).2.1 (by
        have hct : (tokenize_smart "AMOXICILLIN").clean_text =
            "AMOXICILLIN" := rfl
        simp [find_candidates, scenarioRank, hct])⟩

/-! ### C2: the spec's end-to-end scenario

The ℕ/String-valued computations evaluate by `rfl`; the rational
formulas over them are closed by `norm_num`. -/

theorem scenario_name_scores :
    compute_similarity_scores (tokenize_smart scenarioInvoiceName)
      (preprocessMaster scenarioMaster).parsed =
    ⟨25/28, 11/18, 1/3, 1/3, 2/5⟩ := by
  rw [compute_similarity_scores]
  simp only [NameScores.mk.injEq]
  refine ⟨?_, ?_, ?_, ?_, ?_⟩
  · rw [show sequence_ratio
        (tokenize_smart scenarioInvoiceName).full_clean
        (preprocessMaster scenarioMaster).parsed.full_clean =
        2 * ((25 : ℕ) : ℚ) / (((31 : ℕ) : ℚ) + ((25 : ℕ) : ℚ)) from rfl]
    norm_num
  · rw [show levenshtein_similarity
        (tokenize_smart scenarioInvoiceName).clean_text
        (preprocessMaster scenarioMaster).parsed.clean_text =
        1 - ((7 : ℕ) : ℚ) / ((18 : ℕ) : ℚ) from rfl]
    norm_num
  · rw [show jaccard_similarity
        (tokenize_smart scenarioInvoiceName).tokens
        (preprocessMaster scenarioMaster).parsed.tokens =
        ((1 : ℕ) : ℚ) / ((3 : ℕ) : ℚ) from rfl]
    norm_num
  · rw [show phonetic_similarity
        (tokenize_smart scenarioInvoiceName).clean_text
        (preprocessMaster scenarioMaster).parsed.clean_text =
        ((1 : ℕ) : ℚ) / max (((3 : ℕ)) : ℚ) (((1 : ℕ)) : ℚ) from rfl]
    rw [max_eq_left (by norm_num)]
    norm_num
  · rw [show dosageBonus (tokenize_smart scenarioInvoiceName)
          (preprocessMaster scenarioMaster).parsed +
        formBonus (tokenize_smart scenarioInvoiceName)
          (preprocessMaster scenarioMaster).parsed =
        (3/10 : ℚ) * ((1 : ℕ) : ℚ) / ((1 : ℕ) : ℚ) + 1/10 from rfl]
    rw [min_eq_left (by norm_num)]
    norm_num

theorem scenario_eval :
    evalCandidate (tokenize_smart scenarioInvoiceName) "ACME SUPPLIER"
      (some (21/20)) (some (21/10)) scenarioHistoryKeys []
      (scenarioCatalog.get ⟨0, by decide⟩) = scenarioResult := by
  have hentry : scenarioCatalog.get ⟨0, by decide⟩ =
      preprocessMaster scenarioMaster := rfl
  rw [hentry, evalCandidate]
  have hb : ((some ((21 : ℚ)/10)).isSome &&
      (preprocessMaster scenarioMaster).mrp_master.isSome) = true := rfl
  have hss : compute_supplier_score
      (preprocessMaster scenarioMaster).clean_name "ACME SUPPLIER"
      scenarioHistoryKeys [] = 1 := rfl
  have hms : compute_mrp_score (some ((21 : ℚ)/10))
      (preprocessMaster scenarioMaster).mrp_master = 6/7 := by
    rw [show (preprocessMaster scenarioMaster).mrp_master = some 2 from rfl]
    show (if (21 : ℚ)/10 ≤ 0 ∨ (2 : ℚ) ≤ 0 then (0 : ℚ)
      else max 0 (1 - |(21 : ℚ)/10 - 2| / max ((21 : ℚ)/10) 2 * 3)) = 6/7
    rw [if_neg (by norm_num)]
    rw [show |(21 : ℚ)/10 - 2| = 1/10 from by
      rw [show (21 : ℚ)/10 - 2 = 1/10 from by norm_num]
      exact abs_of_nonneg (by norm_num)]
    rw [show max ((21 : ℚ)/10) 2 = 21/10 from max_eq_left (by norm_num)]
    rw [show max (0 : ℚ) (1 - 1/10 / (21/10) * 3) = 1 - 1/10 / (21/10) * 3
      from max_eq_right (by norm_num)]
    norm_num
  have hcs : compute_cost_score (some ((21 : ℚ)/20))
      (preprocessMaster scenarioMaster).b_rate = 1 := by
    rw [show (preprocessMaster scenarioMaster).b_rate = some 1 from rfl]
    show (if (21 : ℚ)/20 ≤ 0 ∨ (1 : ℚ) ≤ 0 then (0 : ℚ)
      else if |(21 : ℚ)/20 / 1 - 1| ≤ 10/100 then 1
      else if |(21 : ℚ)/20 / 1 - 1| ≤ 40/100 then 1/2 else 0) = 1
    rw [if_neg (by norm_num)]
    rw [show |(21 : ℚ)/20 / 1 - 1| = 1/20 from by
      rw [show (21 : ℚ)/20 / 1 - 1 = 1/20 from by norm_num]
      exact abs_of_nonneg (by norm_num)]
    norm_num
  rw [scenario_name_scores, hss, hms, hcs, hb]
  have hif : (if (true = true) then (6/7 : ℚ) else 0) = 6/7 := if_pos rfl
  rw [hif]
  rw [show scenarioResult =
    ⟨some "P1", some "PARACETAMOL 500MG TAB 20S", some 2,
     some ⟨25/28, 11/18, 1/3, 1/3, 2/5⟩, 1, 6/7, 1, 6123/8000, true⟩
    from rfl]
  simp only [MatchResult.mk.injEq]
  norm_num [compute_final_score]
  exact ⟨rfl, rfl, rfl⟩

theorem scenario_match_eval :
    match_item scenarioCatalog scenarioRank scenarioInvoiceName
      "ACME SUPPLIER"
      (effectiveUnitPrice (some 10) (some 0) (some (105/100)))
      (adjust_mrp_for_vat (some (210/100)) (some 0))
      scenarioHistoryKeys [] = scenarioResult := by
  have heup : effectiveUnitPrice (some 10) (some 0) (some (105/100)) =
      some (21/20) := by
    rw [effectiveUnitPrice]
    norm_num
  have hadj : adjust_mrp_for_vat (some (210/100)) (some 0) =
      some (21/10) := by
    rw [adjust_mrp_for_vat]
    norm_num [normalize_vat_rate]
  have hcands : find_candidates scenarioCatalog scenarioRank
      scenarioInvoiceName = [⟨0, by decide⟩] := by
    have hct : (tokenize_smart scenarioInvoiceName).clean_text =
        "PARACETAMOL 500 MG" := rfl
    simp [find_candidates, hct, scenarioRank]
  rw [heup, hadj, match_item, hcands]
  simp only [List.isEmpty_cons, List.map_cons, List.map_nil]
  rw [if_neg (by simp)]
  rw [scenario_eval]
  simp only [bestFold, List.foldl_cons, List.foldl_nil]
  rw [if_pos (show initBest.final_score < scenarioResult.final_score by
    rw [show initBest.final_score = -1 from rfl,
      show scenarioResult.final_score = 6123/8000 from rfl]
    norm_num)]

/-- C2 — corrected (counterexample to the claim as stated).  On the
spec's own scenario inputs, the list-price (MRP) score is 6/7 ≈ 0.857,
not 1.0 (the VAT-free quoted list price 2.10 differs from the catalog
retail 2.00 by a relative 1/21, tripled); the final confidence is
6123/8000 = 0.765375, which is below 0.80, and the classification is
CHECK, not AUTO_OK. -/
theorem C2_scenario_counterexample :
    (match_item scenarioCatalog scenarioRank scenarioInvoiceName
      "ACME SUPPLIER"
      (effectiveUnitPrice (some 10) (some 0) (some (105/100)))
      (adjust_mrp_for_vat (some (210/100)) (some 0))
      scenarioHistoryKeys []).mrp_score ≠ 1 ∧
    ¬(80/100 ≤ (match_item scenarioCatalog scenarioRank scenarioInvoiceName
      "ACME SUPPLIER"
      (effectiveUnitPrice (some 10) (some 0) (some (105/100)))
      (adjust_mrp_for_vat (some (210/100)) (some 0))
      scenarioHistoryKeys []).final_score) ∧
    flagOf (match_item scenarioCatalog scenarioRank scenarioInvoiceName
      "ACME SUPPLIER"
      (effectiveUnitPrice (some 10) (some 0) (some (105/100)))
      (adjust_mrp_for_vat (some (210/100)) (some 0))
      scenarioHistoryKeys []).final_score ≠ "AUTO_OK" := by
  rw [scenario_match_eval]
  rw [show scenarioResult.mrp_score = 6/7 from rfl,
    show scenarioResult.final_score = 6123/8000 from rfl]
  refine ⟨by norm_num, by norm_num, ?_⟩
  rw [flagOf, if_neg (by norm_num), if_pos (by norm_num)]
  simp

/-- C2 — amended claim, proved: in the scenario, dosage `500MG` is
extracted on both sides and the extracted forms (`TABLET` on the
invoice side, `TAB` on the catalog side) normalize to the same `TAB`,
so the component bonus carries both the dosage part (0.3) and the form
part (0.1); the supplier and cost scores are 1.0; but the list-price
score is 6/7 (not 1.0), the final confidence is 6123/8000 = 0.765375
(below 0.80), the classification is CHECK (not AUTO_OK), and the
suggested catalog code is still `P1`. -/
theorem C2_scenario_amended :
    (tokenize_smart scenarioInvoiceName).dosages = ["500MG"] ∧
    (preprocessMaster scenarioMaster).parsed.dosages = ["500MG"] ∧
    normalize_form (tokenize_smart scenarioInvoiceName).form =
      some "TAB" ∧
    normalize_form (preprocessMaster scenarioMaster).parsed.form =
      some "TAB" ∧
    (match_item scenarioCatalog scenarioRank scenarioInvoiceName
      "ACME SUPPLIER"
      (effectiveUnitPrice (some 10) (some 0) (some (105/100)))
      (adjust_mrp_for_vat (some (210/100)) (some 0))
      scenarioHistoryKeys []).name_scores =
      some ⟨25/28, 11/18, 1/3, 1/3, 2/5⟩ ∧
    (match_item scenarioCatalog scenarioRank scenarioInvoiceName
      "ACME SUPPLIER"
      (effectiveUnitPrice (some 10) (some 0) (some (105/100)))
      (adjust_mrp_for_vat (some (210/100)) (some 0))
      scenarioHistoryKeys []).supplier_score = 1 ∧
    (match_item scenarioCatalog scenarioRank scenarioInvoiceName
      "ACME SUPPLIER"
      (effectiveUnitPrice (some 10) (some 0) (some (105/100)))
      (adjust_mrp_for_vat (some (210/100)) (some 0))
      scenarioHistoryKeys []).cost_score = 1 ∧
    (match_item scenarioCatalog scenarioRank scenarioInvoiceName
      "ACME SUPPLIER"
      (effectiveUnitPrice (some 10) (some 0) (some (105/100)))
      (adjust_mrp_for_vat (some (210/100)) (some 0))
      scenarioHistoryKeys []).mrp_score = 6/7 ∧
    (match_item scenarioCatalog scenarioRank scenarioInvoiceName
      "ACME SUPPLIER"
      (effectiveUnitPrice (some 10) (some 0) (some (105/100)))
      (adjust_mrp_for_vat (some (210/100)) (some 0))
      scenarioHistoryKeys []).final_score = 6123/8000 ∧
    flagOf (match_item scenarioCatalog scenarioRank scenarioInvoiceName
      "ACME SUPPLIER"
      (effectiveUnitPrice (some 10) (some 0) (some (105/100)))
      (adjust_mrp_for_vat (some (210/100)) (some 0))
      scenarioHistoryKeys []).final_score = "CHECK" ∧
    (match_item scenarioCatalog scenarioRank scenarioInvoiceName
      "ACME SUPPLIER"
      (effectiveUnitPrice (some 10) (some 0) (some (105/100)))
      (adjust_mrp_for_vat (some (210/100)) (some 0))
      scenarioHistoryKeys []).item_code = some "P1" := by
  rw [scenario_match_eval]
  refine ⟨rfl, rfl, rfl, rfl, rfl, rfl, rfl, rfl, rfl, ?_, rfl⟩
  rw [show scenarioResult.final_score = 6123/8000 from rfl]
  rw [flagOf, if_neg (by norm_num), if_pos (by norm_num)]

end PharmacyMatcher
